import Mathlib

/-!
Verification of the ujson library (src/ujson.h, src/ujson.cpp): a strict
JSON-dialect parser with an access-tracking typed accessor layer.

The embedding models the byte buffer as a `List Nat` of byte values
(the C `char` is read as an unsigned byte), C `int64_t` values as `Int`
(the source checks for 64-bit overflow explicitly, so no wrap-around is
reachable), and the parsed tree `ValImpl` as the inductive `VImpl`.
C `double` values are modelled by the opaque carrier `CDouble`, which
records the provenance of the value (the token handed to strtod, or the
64-bit integer widened by F64::get); no floating-point arithmetic is
performed by the source on doubles, so this carrier is faithful.
-/

namespace Ujson

/-- Bytes of an ASCII string literal, for concrete test inputs. -/
def bytesOf (s : String) : List Nat :=
  s.data.map Char.toNat

/-- Model of the C `double` payloads.  Doubles enter the tree only from
`strtod` (whose consumed token we record) and leave widened from `int64_t`
in `F64::get`; the source never computes with them. -/
inductive CDouble : Type where
  | strtodOf (tok : List Nat)
  | ofInt64 (n : Int)
deriving DecidableEq

/-- Type-tag bit for null values (`vtNull`). -/
def vtNull : Nat := 1

/-- Type-tag bit for booleans (`vtBool`). -/
def vtBool : Nat := 2

/-- Type-tag bit for 64-bit integers (`vtInt`). -/
def vtInt : Nat := 4

/-- Type-tag bit for doubles (`vtF64`). -/
def vtF64 : Nat := 8

/-- Type-tag bit for strings (`vtStr`). -/
def vtStr : Nat := 16

/-- Type-tag bit for arrays (`vtArr`). -/
def vtArr : Nat := 32

/-- Type-tag bit for objects (`vtObj`). -/
def vtObj : Nat := 64

/-- The error taxonomy of ujson.h.  `fuelOut` is an artifact of the
bounded-recursion embedding of the parser and is unreachable for
sufficient fuel; `atOutOfRange` models the `std::out_of_range` thrown by
`std::vector::at`. -/
inductive Err : Type where
  | syntaxErr (msg : String) (line : Int)
  | badType (name : List Nat) (idx : Int) (vtype : Nat) (expected : Nat)
  | badIntRange (name : List Nat) (idx : Int) (lo hi : Int)
  | badF64Range (name : List Nat) (idx : Int) (lo hi : CDouble)
  | memberNotFound (name : List Nat)
  | unknownMember (name : List Nat) (idx : Int) (vtype : Nat) (line : Int)
  | badEnum (name : List Nat) (idx : Int)
  | atOutOfRange
  | fuelOut
deriving DecidableEq

/-- Payload of a `ValImpl` node: the union `m_data` together with the type
tag that discriminates it.  Objects (`ValImpl::Dict`) carry the
name-to-position map alongside the ordered children. -/
inductive VData (V : Type) : Type where
  | vnull : VData V
  | vbool (b : Bool) : VData V
  | vint (n : Int) : VData V
  | vf64 (d : CDouble) : VData V
  | vstr (s : List Nat) : VData V
  | varr (children : List V) : VData V
  | vobj (map : List (List Nat × Int)) (children : List V) : VData V

/-- The node type `ValImpl`: payload plus the `vtUsedBit` flag (modelled
as the separate Boolean `used`), `m_line_no`, `m_name` and `m_idx`. -/
inductive VImpl : Type where
  | mk (data : VData VImpl) (used : Bool) (line : Int) (name : List Nat) (idx : Int)

/-- Projection: the payload (`m_data` with its discriminating tag). -/
def VImpl.data : VImpl → VData VImpl
  | .mk d _ _ _ _ => d

/-- Projection: the accessed flag (`m_type & vtUsedBit`). -/
def VImpl.used : VImpl → Bool
  | .mk _ u _ _ _ => u

/-- Projection: `m_line_no`. -/
def VImpl.line : VImpl → Int
  | .mk _ _ l _ _ => l

/-- Projection: `m_name`. -/
def VImpl.name : VImpl → List Nat
  | .mk _ _ _ n _ => n

/-- Projection: `m_idx`. -/
def VImpl.idx : VImpl → Int
  | .mk _ _ _ _ i => i

/-- `ValImpl::mark_as_used`: set the accessed flag, everything else kept. -/
def VImpl.mark_as_used : VImpl → VImpl
  | .mk d _ l n i => .mk d true l n i

/-- `Val::get_type`: the type tag with `vtUsedBit` masked off. -/
def VImpl.get_type (v : VImpl) : Nat :=
  match v.data with
  | .vnull => vtNull
  | .vbool _ => vtBool
  | .vint _ => vtInt
  | .vf64 _ => vtF64
  | .vstr _ => vtStr
  | .varr _ => vtArr
  | .vobj _ _ => vtObj

/-- Reading `m_data.i64` (meaningful only when the tag is `vtInt`). -/
def VImpl.i64 (v : VImpl) : Int :=
  match v.data with
  | .vint n => n
  | _ => 0

/-- Reading `m_data.f64` (meaningful only when the tag is `vtF64`). -/
def VImpl.f64 (v : VImpl) : CDouble :=
  match v.data with
  | .vf64 d => d
  | _ => .ofInt64 0

/-- Reading `m_data.b` (meaningful only when the tag is `vtBool`). -/
def VImpl.bdat (v : VImpl) : Bool :=
  match v.data with
  | .vbool b => b
  | _ => false

/-- Reading `m_data.str` (meaningful only when the tag is `vtStr`). -/
def VImpl.strdat (v : VImpl) : List Nat :=
  match v.data with
  | .vstr s => s
  | _ => []

/-- The children list of a container node (`m_data.list->values`). -/
def VImpl.children (v : VImpl) : List VImpl :=
  match v.data with
  | .varr cs => cs
  | .vobj _ cs => cs
  | _ => []

/-- `val_cast<T, E>`: succeed iff the type tag intersects the mask `E`,
otherwise throw `ErrBadType` carrying the expected type `T::type()`. -/
def val_cast (v : VImpl) (E expected : Nat) : Except Err VImpl :=
  if v.get_type &&& E = 0 then
    .error (.badType v.name v.idx v.get_type expected)
  else
    .ok v

/-- `Val::as_bool`. -/
def Val_as_bool (v : VImpl) : Except Err VImpl :=
  val_cast v vtBool vtBool

/-- `Val::as_int`. -/
def Val_as_int (v : VImpl) : Except Err VImpl :=
  val_cast v vtInt vtInt

/-- `Val::as_f64`: the mask accepts both `vtInt` and `vtF64`. -/
def Val_as_f64 (v : VImpl) : Except Err VImpl :=
  val_cast v (vtInt ||| vtF64) vtF64

/-- `Val::as_str`. -/
def Val_as_str (v : VImpl) : Except Err VImpl :=
  val_cast v vtStr vtStr

/-- `Val::as_arr`. -/
def Val_as_arr (v : VImpl) : Except Err VImpl :=
  val_cast v vtArr vtArr

/-- `Val::as_obj`. -/
def Val_as_obj (v : VImpl) : Except Err VImpl :=
  val_cast v vtObj vtObj

/-- `Val::is_num`. -/
def Val_is_num (v : VImpl) : Bool :=
  v.get_type &&& (vtInt ||| vtF64) ≠ 0

/-- `Int::get()`: the stored 64-bit integer. -/
def Int_get (v : VImpl) : Int :=
  v.i64

/-- `Int::get(lo, hi)`: range-checked read; the check only applies when
`lo <= hi`. -/
def Int_get_range (v : VImpl) (lo hi : Int) : Except Err Int :=
  let num := Int_get v
  if lo ≤ hi ∧ (num < lo ∨ num > hi) then
    .error (.badIntRange v.name v.idx lo hi)
  else
    .ok num

/-- `INT32_MIN`. -/
def INT32_MIN : Int := -(2 ^ 31)

/-- `INT32_MAX`. -/
def INT32_MAX : Int := 2 ^ 31 - 1

/-- `static_cast<int32_t>` of an `int64_t`: two's-complement truncation. -/
def i32cast (n : Int) : Int :=
  (n + 2 ^ 31) % 2 ^ 32 - 2 ^ 31

/-- `Int::get_i32()`: checked against the full int32 range. -/
def Int_get_i32 (v : VImpl) : Except Err Int :=
  (Int_get_range v INT32_MIN INT32_MAX).map i32cast

/-- `Int::get_i32(lo, hi)`: `lo > hi` is replaced by the full int32
range before delegating to `Int::get(lo, hi)`. -/
def Int_get_i32_range (v : VImpl) (lo hi : Int) : Except Err Int :=
  let lo2 := if lo > hi then INT32_MIN else lo
  let hi2 := if lo > hi then INT32_MAX else hi
  (Int_get_range v lo2 hi2).map i32cast

/-- `F64::get()`: if the tag is `vtInt` the stored integer is widened to
double, otherwise the stored double is returned. -/
def F64_get (v : VImpl) : CDouble :=
  if vtInt &&& v.get_type ≠ 0 then .ofInt64 v.i64 else v.f64

/-- `Bool::get()`. -/
def Bool_get (v : VImpl) : Bool :=
  v.bdat

/-- `Str::get()`. -/
def Str_get (v : VImpl) : List Nat :=
  v.strdat

/-- `ArrImpl::get_element` (the internal accessor): `values.at(idx)`,
which does not touch the accessed flag and throws `std::out_of_range`
for a position outside the vector (a negative `int32_t` converts to a
huge `size_t`, hence is also out of range). -/
def ArrImpl_get_element (v : VImpl) (idx : Int) : Except Err VImpl :=
  let cs := v.children
  if h : 0 ≤ idx ∧ idx.toNat < cs.length then
    .ok (cs.get ⟨idx.toNat, h.2⟩)
  else
    .error .atOutOfRange

/-- Replace the i-th element of a list by its `mark_as_used` image. -/
def markAt : List VImpl → Nat → List VImpl
  | [], _ => []
  | c :: rest, 0 => c.mark_as_used :: rest
  | c :: rest, n + 1 => c :: markAt rest n

/-- Rebuild a container node with a new children list (helper expressing
in-place mutation of `m_data.list->values`). -/
def VImpl.withChildren (v : VImpl) (cs : List VImpl) : VImpl :=
  match v with
  | .mk (.varr _) u l n i => .mk (.varr cs) u l n i
  | .mk (.vobj m _) u l n i => .mk (.vobj m cs) u l n i
  | w => w

/-- `Arr::get_len`. -/
def Arr_get_len (v : VImpl) : Int :=
  Int.ofNat v.children.length

/-- `Arr::get_element` (the public accessor): fetch the element and call
`mark_as_used` on it.  The result pairs the returned reference (the
marked element) with the updated tree. -/
def Arr_get_element (v : VImpl) (idx : Int) : Except Err (VImpl × VImpl) :=
  match ArrImpl_get_element v idx with
  | .error e => .error e
  | .ok c => .ok (c.mark_as_used, v.withChildren (markAt v.children idx.toNat))

/-- `ObjImpl::find`: name-to-position map lookup, `-1` when absent. -/
def ObjImpl_find (v : VImpl) (nm : List Nat) : Int :=
  match v.data with
  | .vobj m _ => ((m.lookup nm).getD (-1))
  | _ => -1

/-- `Obj::get_member_idx`. -/
def Obj_get_member_idx (v : VImpl) (nm : List Nat) (required : Bool) :
    Except Err Int :=
  let idx := ObjImpl_find v nm
  if required ∧ idx < 0 then
    .error (.memberNotFound nm)
  else
    .ok idx

/-- `Obj::get_member_name`: reads the name through the internal
`ObjImpl::get_element`, which does not set the accessed flag. -/
def Obj_get_member_name (v : VImpl) (idx : Int) : Except Err (List Nat) :=
  (ArrImpl_get_element v idx).map VImpl.name

/-- `Obj::get_member`: looks the name up and, when present, returns the
element through the public (flag-setting) `Arr::get_element`.  The result
pairs the optional member with the updated tree. -/
def Obj_get_member (v : VImpl) (nm : List Nat) (required : Bool) :
    Except Err (Option VImpl × VImpl) :=
  match Obj_get_member_idx v nm required with
  | .error e => .error e
  | .ok idx =>
    if idx ≥ 0 then
      match Arr_get_element v idx with
      | .error e => .error e
      | .ok (c, v2) => .ok (some c, v2)
    else
      .ok (none, v)

mutual

/-- `do_reject_unknow_members` together with its child loop `rejectList`:
throw on the first unaccessed value whose parent is an Object, descending
into every container child (array children are descended into but never
reported). -/
def do_reject_unknow_members : VImpl → Except Err Unit
  | .mk (.varr cs) _ _ _ _ => rejectList false cs
  | .mk (.vobj _ cs) _ _ _ _ => rejectList true cs
  | _ => .ok ()

/-- Child loop of `do_reject_unknow_members`. -/
def rejectList : Bool → List VImpl → Except Err Unit
  | _, [] => .ok ()
  | isObj, c :: rest =>
    if !c.used && isObj then
      .error (.unknownMember c.name c.idx c.get_type c.line)
    else do
      do_reject_unknow_members c
      rejectList isObj rest

end

mutual

/-- Recursion of `do_ignore_members` over the payload: the children
lists are rewritten with every node marked. -/
def ignoreChildren : VData VImpl → VData VImpl
  | .varr cs => .varr (ignoreList cs)
  | .vobj m cs => .vobj m (ignoreList cs)
  | d => d

/-- Child loop of `do_ignore_members`: each child is marked as used
(`v->mark_as_used()`) and then recursed into. -/
def ignoreList : List VImpl → List VImpl
  | [] => []
  | .mk d _ l n i :: rest => .mk (ignoreChildren d) true l n i :: ignoreList rest

end

/-- `do_ignore_members`: mark every strict descendant as used; the root
node itself keeps its flag. -/
def do_ignore_members : VImpl → VImpl
  | .mk d u l n i => .mk (ignoreChildren d) u l n i

mutual

/-- Specification-side enumeration of every value that is a direct child
of a container in the subtree, tagged with whether that container is an
Object.  (Written from the words of the spec, to be compared with
`do_reject_unknow_members`.) -/
def childNodes : VImpl → List (Bool × VImpl)
  | .mk (.varr cs) _ _ _ _ => childNodesList false cs
  | .mk (.vobj _ cs) _ _ _ _ => childNodesList true cs
  | _ => []

/-- Child loop of `childNodes`. -/
def childNodesList : Bool → List VImpl → List (Bool × VImpl)
  | _, [] => []
  | isObj, c :: rest => (isObj, c) :: (childNodes c ++ childNodesList isObj rest)

end

/-- Specification-side predicate: every direct child of every Object in
the subtree has its accessed flag set. -/
def allObjChildrenUsed (v : VImpl) : Bool :=
  (childNodes v).all fun p => !p.1 || p.2.used

mutual

/-- Pointwise flag ordering: the two trees agree on everything except
that accessed flags may only go from false to true. -/
def flagsLE : VImpl → VImpl → Bool
  | .mk d1 u1 l1 n1 i1, .mk d2 u2 l2 n2 i2 =>
    (!u1 || u2) && (l1 == l2) && (n1 == n2) && (i1 == i2) && dataFlagsLE d1 d2

/-- `flagsLE` on payloads. -/
def dataFlagsLE : VData VImpl → VData VImpl → Bool
  | .vnull, .vnull => true
  | .vbool b1, .vbool b2 => b1 == b2
  | .vint n1, .vint n2 => n1 == n2
  | .vf64 d1, .vf64 d2 => d1 == d2
  | .vstr s1, .vstr s2 => s1 == s2
  | .varr cs1, .varr cs2 => listFlagsLE cs1 cs2
  | .vobj m1 cs1, .vobj m2 cs2 => (m1 == m2) && listFlagsLE cs1 cs2
  | _, _ => false

/-- `flagsLE` on children lists. -/
def listFlagsLE : List VImpl → List VImpl → Bool
  | [], [] => true
  | c1 :: r1, c2 :: r2 => flagsLE c1 c2 && listFlagsLE r1 r2
  | _, _ => false

end

/-!
## Parser

The buffer is a `List Nat` of byte values; the zero terminator of the C
buffer is represented by the end of the list (`headD 0` reads a byte
with the terminator surfacing as 0, exactly like `*m_next`).  The
position pointers `m_next`/`p` become suffixes of the buffer.  Syntax
error messages follow the source with the quoted character literals
elided. -/

/-- Digit test `*p >= '0' && *p <= '9'`. -/
def isDigitB (c : Nat) : Bool :=
  48 ≤ c && c ≤ 57

/-- `skip_text`: `strncmp` against a literal, advancing on match. -/
def skip_text (tok s : List Nat) : Option (List Nat) :=
  if tok.isPrefixOf s then some (s.drop tok.length) else none

/-- `skip_to_eol`: consume up to and including the next CR, LF or CRLF
(counted as one line), or to the end of the buffer. -/
def skip_to_eol : List Nat → Int → List Nat × Int
  | [], line => ([], line)
  | c :: rest, line =>
    if c = 13 then
      match rest with
      | 10 :: r2 => (r2, line + 1)
      | r => (r, line + 1)
    else if c = 10 then (rest, line + 1)
    else skip_to_eol rest line

/-- The loop of `skip_white_space`, recursion bounded by fuel (each
iteration consumes at least one byte, so the caller's fuel of one more
than the buffer length makes the zero-fuel stop unreachable). -/
def skip_ws_go : Nat → List Nat → Int → List Nat × Int
  | 0, s, line => (s, line)
  | fuel + 1, s, line =>
    match s with
    | [] => ([], line)
    | c :: rest =>
      if c = 32 ∨ c = 9 then
        skip_ws_go fuel rest line
      else if c = 13 ∨ c = 10 then
        let r := skip_to_eol s line
        skip_ws_go fuel r.1 r.2
      else if c = 47 ∧ rest.headD 0 = 47 then
        let r := skip_to_eol s line
        skip_ws_go fuel r.1 r.2
      else
        (s, line)

/-- `skip_white_space`: runs of space, tab, CR/LF (through `skip_to_eol`)
and `//` comments. -/
def skip_white_space (s : List Nat) (line : Int) : List Nat × Int :=
  skip_ws_go (s.length + 1) s line

/-- Hex digit value for `parse_hex4` (case-insensitive). -/
def hexVal (c : Nat) : Option Nat :=
  if 48 ≤ c ∧ c ≤ 57 then some (c - 48)
  else if 65 ≤ c ∧ c ≤ 70 then some (c - 55)
  else if 97 ≤ c ∧ c ≤ 102 then some (c - 87)
  else none

/-- The four-iteration loop of `parse_hex4`. -/
def parse_hex4_go : Nat → Nat → List Nat → Int → Except Err (Nat × List Nat)
  | 0, code, s, _ => .ok (code, s)
  | k + 1, code, s, line =>
    match hexVal (s.headD 0) with
    | none => .error (.syntaxErr "invalid string syntax: bad utf-16 codepoint" line)
    | some d => parse_hex4_go k (code * 16 + d) (s.drop 1) line

/-- `parse_hex4`: read four hex digits into a code unit. -/
def parse_hex4 (s : List Nat) (line : Int) : Except Err (Nat × List Nat) :=
  parse_hex4_go 4 0 s line

/-- The surrogate-pair step of `parse_encoding`: a code unit in the
high-surrogate range must be followed by a second escape in the
low-surrogate range, combined into one code point; any other code unit
passes through unchanged. -/
def surrogate_step (code0 : Nat) (s1 : List Nat) (line : Int) :
    Except Err (Nat × List Nat) :=
  if 0xD800 ≤ code0 ∧ code0 ≤ 0xDBFF then
    match skip_text [92, 117] s1 with
    | none => .error (.syntaxErr "invalid string syntax: bad utf-16 codepoint" line)
    | some s2 =>
      match parse_hex4 s2 line with
      | .error e => .error e
      | .ok (code2, s3) =>
        if code2 < 0xDC00 ∨ code2 > 0xDFFF then
          .error (.syntaxErr "invalid string syntax: bad utf-16 codepoint" line)
        else
          .ok ((((code0 - 0xD800) <<< 10) ||| (code2 - 0xDC00)) + 0x10000, s3)
  else
    .ok (code0, s1)

/-- The byte emission of `parse_encoding`: `static_cast<char>` keeps the
low eight bits of each written byte. -/
def utf8_emit (code : Nat) : List Nat :=
  if code ≤ 0x7F then
    [code &&& 0xFF]
  else if code ≤ 0x7FF then
    [(0xC0 ||| ((code >>> 6) &&& 0xFF)) &&& 0xFF,
     (0x80 ||| (code &&& 0x3F)) &&& 0xFF]
  else if code ≤ 0xFFFF then
    [(0xE0 ||| ((code >>> 12) &&& 0xFF)) &&& 0xFF,
     (0x80 ||| ((code >>> 6) &&& 0x3F)) &&& 0xFF,
     (0x80 ||| (code &&& 0x3F)) &&& 0xFF]
  else
    [(0xF0 ||| ((code >>> 18) &&& 0xFF)) &&& 0xFF,
     (0x80 ||| ((code >>> 12) &&& 0x3F)) &&& 0xFF,
     (0x80 ||| ((code >>> 6) &&& 0x3F)) &&& 0xFF,
     (0x80 ||| (code &&& 0x3F)) &&& 0xFF]

/-- Specification-side standard UTF-8 encoding of a code point, written
arithmetically (to be compared with the bit-twiddling `utf8_emit` of the
source). -/
def utf8Spec (code : Nat) : List Nat :=
  if code ≤ 0x7F then
    [code]
  else if code ≤ 0x7FF then
    [0xC0 + code / 64, 0x80 + code % 64]
  else if code ≤ 0xFFFF then
    [0xE0 + code / 4096, 0x80 + code / 64 % 64, 0x80 + code % 64]
  else
    [0xF0 + code / 262144, 0x80 + code / 4096 % 64, 0x80 + code / 64 % 64,
     0x80 + code % 64]

/-- `parse_encoding`: decode one `\u` escape (with surrogate-pair
handling) and append its UTF-8 bytes to the decoded output `out`. -/
def parse_encoding (s : List Nat) (line : Int) (out : List Nat) :
    Except Err (List Nat × List Nat) :=
  match parse_hex4 s line with
  | .error e => .error e
  | .ok (code0, s1) =>
    if 0xDC00 ≤ code0 ∧ code0 ≤ 0xDFFF then
      .error (.syntaxErr "invalid string syntax: bad utf-16 codepoint" line)
    else
      match surrogate_step code0 s1 line with
      | .error e => .error e
      | .ok (code, s2) => .ok (out ++ utf8_emit code, s2)

/-- The scan loop of `parse_str`: decode bytes until the closing quote,
appending decoded bytes to `out` (the in-place write-back is modelled by
the growing output list).  The recursion is bounded by fuel; every
iteration consumes at least one byte, so the caller's fuel of one more
than the buffer length makes `Err.fuelOut` unreachable. -/
def parse_str_go : Nat → List Nat → Int → List Nat →
    Except Err (List Nat × List Nat)
  | 0, _, _, _ => .error .fuelOut
  | fuel + 1, s, line, out =>
    match s with
    | [] =>
      -- `*m_next++` reads the zero terminator here
      .error (.syntaxErr "invalid string syntax: line ending before closing quotes" line)
    | c :: s1 =>
      if c = 34 then
        .ok (out, s1)
      else if c = 13 ∨ c = 10 ∨ c = 0 then
        .error (.syntaxErr "invalid string syntax: line ending before closing quotes" line)
      else if c < 32 then
        .error (.syntaxErr "invalid string syntax: control characters not allowed" line)
      else if c = 92 then
        let esc := s1.headD 0
        let s2 := s1.drop 1
        if esc = 92 then parse_str_go fuel s2 line (out ++ [92])
        else if esc = 47 then parse_str_go fuel s2 line (out ++ [47])
        else if esc = 98 then parse_str_go fuel s2 line (out ++ [8])
        else if esc = 102 then parse_str_go fuel s2 line (out ++ [12])
        else if esc = 110 then parse_str_go fuel s2 line (out ++ [10])
        else if esc = 114 then parse_str_go fuel s2 line (out ++ [13])
        else if esc = 116 then parse_str_go fuel s2 line (out ++ [9])
        else if esc = 117 then
          match parse_encoding s2 line out with
          | .error e => .error e
          | .ok (out2, s3) => parse_str_go fuel s3 line out2
        else
          .error (.syntaxErr "invalid string syntax: bad escape character" line)
      else
        parse_str_go fuel s1 line (out ++ [c])

/-- `parse_str`: `nullptr` (here `none`) when the input does not start
with a quote; otherwise the decoded bytes and the rest of the buffer. -/
def parse_str (s : List Nat) (line : Int) :
    Except Err (Option (List Nat × List Nat)) :=
  match skip_text [34] s with
  | none => .ok none
  | some s1 =>
    match parse_str_go (s1.length + 1) s1 line [] with
    | .error e => .error e
    | .ok r => .ok (some r)

/-- The digit-accumulation loop of the integer branch of
`parse_val_num`: the value is accumulated negated, and the bound check
`n < a || (n == a && d > b)` precedes every step. -/
def intLoop : List Nat → Int → Bool → Int → Except Err Int
  | [], n, _, _ => .ok n
  | c :: rest, n, negative, line =>
    let a : Int := -922337203685477580
    let b : Int := if negative then 8 else 7
    let d : Int := (c : Int) - 48
    if n < a ∨ (n = a ∧ d > b) then
      .error (.syntaxErr "invalid number syntax: integer does not fit in 64 bits" line)
    else
      intLoop rest (n * 10 - d) negative line

/-- Modelled from the spec: the platform `strtod`, which consumes the
maximal C floating-point prefix (optional sign, digits with an optional
point, and an exponent only when at least one exponent digit follows)
and reports how far it read.  The `ERANGE` overflow report of the real
`strtod` concerns IEEE-754 range and is not modelled; this model never
reports a range error. -/
def strtodModel (s : List Nat) : Option (List Nat × List Nat) :=
  let sgnLen : Nat := if s.headD 0 = 45 ∨ s.headD 0 = 43 then 1 else 0
  let p0 := s.drop sgnLen
  let ids := p0.takeWhile isDigitB
  let p1 := p0.drop ids.length
  let hasDot := p1.headD 0 = 46
  let fds := if hasDot then (p1.drop 1).takeWhile isDigitB else []
  let p2 := if hasDot then (p1.drop 1).drop fds.length else p1
  if ids.length = 0 ∧ fds.length = 0 then
    none
  else
    let mantLen := sgnLen + ids.length + (if hasDot then 1 + fds.length else 0)
    let hasExpHead := p2.headD 0 = 101 ∨ p2.headD 0 = 69
    let pe := if hasExpHead then p2.drop 1 else p2
    let hasESign := hasExpHead ∧ (pe.headD 0 = 43 ∨ pe.headD 0 = 45)
    let pes := if hasESign then pe.drop 1 else pe
    let eds := pes.takeWhile isDigitB
    let useExp := hasExpHead ∧ eds.length ≠ 0
    let totLen :=
      mantLen + (if useExp then 1 + (if hasESign then 1 else 0) + eds.length else 0)
    some (s.take totLen, s.drop totLen)

/-- `parse_val_num`: lex the number token (sign, digits, optional
fraction, optional exponent), classify it as Int or Float, and convert.
`none` means the input does not start a number token at all. -/
def parse_val_num (s : List Nat) (line : Int) :
    Except Err (Option (VData VImpl × List Nat)) :=
  let negative := s.headD 0 = 45
  let p0 := if negative then s.drop 1 else s
  let ds := p0.takeWhile isDigitB
  let p1 := p0.drop ds.length
  if ds.length = 0 ∧ ¬negative then
    .ok none
  else if ds.length = 0 then
    .error (.syntaxErr "invalid number syntax: no digits after minus sign" line)
  else if ds.headD 0 = 48 ∧ ds.length > 1 then
    .error (.syntaxErr "invalid number syntax: leading zero before another digit" line)
  else
    let hasFrac := p1.headD 0 = 46
    let fds := if hasFrac then (p1.drop 1).takeWhile isDigitB else []
    let p2 := if hasFrac then (p1.drop 1).drop fds.length else p1
    let hasExp := p2.headD 0 = 101 ∨ p2.headD 0 = 69
    let p2e := if hasExp then p2.drop 1 else p2
    let hasESign := hasExp ∧ (p2e.headD 0 = 43 ∨ p2e.headD 0 = 45)
    let p2s := if hasESign then p2e.drop 1 else p2e
    let eds := if hasExp then p2s.takeWhile isDigitB else []
    let p3 := if hasExp then p2s.drop eds.length else p2
    if ¬(hasFrac ∨ hasExp) then
      match intLoop ds 0 negative line with
      | .error e => .error e
      | .ok n => .ok (some (.vint (if negative then n else -n), p3))
    else
      match strtodModel s with
      | some (tok, rest) =>
        if rest.length = p3.length then
          .ok (some (.vf64 (.strtodOf tok), p3))
        else
          .error (.syntaxErr "invalid number syntax: bad float format" line)
      | none => .error (.syntaxErr "invalid number syntax: bad float format" line)

/-- `parse_val_bool`. -/
def parse_val_bool (s : List Nat) (line : Int) :
    Option (VImpl × List Nat × Int) :=
  match skip_text [102, 97, 108, 115, 101] s with  -- "false"
  | some s2 => some (.mk (.vbool false) false line [] (-1), s2, line)
  | none =>
    match skip_text [116, 114, 117, 101] s with    -- "true"
    | some s2 => some (.mk (.vbool true) false line [] (-1), s2, line)
    | none => none

/-- `ValImpl::m_idx` update performed by `ArrImpl::add_element`. -/
def VImpl.withIdx : VImpl → Int → VImpl
  | .mk d u l n _, i => .mk d u l n i

/-- `ValImpl::m_name` update performed by `ObjImpl::add_member`. -/
def VImpl.withName : VImpl → List Nat → VImpl
  | .mk d u l _ i, n => .mk d u l n i

mutual

/-- `Parser::parse_val`: whitespace, then the alternatives in source
order (null, bool, number, string, array, object).  The `fuel` bound
makes the recursion of the embedding well-founded; `Err.fuelOut` is
unreachable for sufficient fuel. -/
def parse_val : Nat → List Nat → Int → Except Err (VImpl × List Nat × Int)
  | 0, _, _ => .error .fuelOut
  | fuel + 1, s, line =>
    let ws := skip_white_space s line
    let s1 := ws.1
    let l1 := ws.2
    match skip_text [110, 117, 108, 108] s1 with   -- "null"
    | some s2 => .ok (.mk .vnull false l1 [] (-1), s2, l1)
    | none =>
    match parse_val_bool s1 l1 with
    | some r => .ok r
    | none =>
    match parse_val_num s1 l1 with
    | .error e => .error e
    | .ok (some (d, s2)) => .ok (.mk d false l1 [] (-1), s2, l1)
    | .ok none =>
    match parse_str s1 l1 with
    | .error e => .error e
    | .ok (some (str, s2)) => .ok (.mk (.vstr str) false l1 [] (-1), s2, l1)
    | .ok none =>
    match skip_text [91] s1 with                   -- parse_val_arr
    | some s2 =>
      (match parse_arr_loop fuel [] s2 l1 with
       | .error e => .error e
       | .ok (cs, s3, l3) => .ok (.mk (.varr cs) false l1 [] (-1), s3, l3))
    | none =>
    match skip_text [123] s1 with                  -- parse_val_obj
    | some s2 =>
      (match parse_obj_loop fuel [] [] s2 l1 with
       | .error e => .error e
       | .ok (m, cs, s3, l3) => .ok (.mk (.vobj m cs) false l1 [] (-1), s3, l3))
    | none => .error (.syntaxErr "invalid syntax" l1)

/-- The element loop of `Parser::parse_val_arr`: the closing bracket is
accepted at the top of every iteration and after every element. -/
def parse_arr_loop : Nat → List VImpl → List Nat → Int →
    Except Err (List VImpl × List Nat × Int)
  | 0, _, _, _ => .error .fuelOut
  | fuel + 1, cs, s, line =>
    let ws := skip_white_space s line
    match skip_text [93] ws.1 with
    | some s2 => .ok (cs, s2, ws.2)
    | none =>
      match parse_val fuel ws.1 ws.2 with
      | .error e => .error e
      | .ok (v, s2, l2) =>
        let cs2 := cs ++ [v.withIdx (Int.ofNat cs.length)]
        let ws2 := skip_white_space s2 l2
        match skip_text [93] ws2.1 with
        | some s3 => .ok (cs2, s3, ws2.2)
        | none =>
          match skip_text [44] ws2.1 with
          | some s3 => parse_arr_loop fuel cs2 s3 ws2.2
          | none =>
            .error (.syntaxErr "invalid array syntax: expected comma or closing bracket" ws2.2)

/-- The member loop of `Parser::parse_val_obj`: name, colon, value,
duplicate-name check through the map, and the closing brace accepted at
the top of every iteration and after every member. -/
def parse_obj_loop : Nat → List (List Nat × Int) → List VImpl → List Nat → Int →
    Except Err (List (List Nat × Int) × List VImpl × List Nat × Int)
  | 0, _, _, _, _ => .error .fuelOut
  | fuel + 1, m, cs, s, line =>
    let ws := skip_white_space s line
    match skip_text [125] ws.1 with
    | some s2 => .ok (m, cs, s2, ws.2)
    | none =>
      match parse_str ws.1 ws.2 with
      | .error e => .error e
      | .ok none =>
        .error (.syntaxErr "invalid object syntax: expected member name or closing brace" ws.2)
      | .ok (some (nm, s2)) =>
        let ws2 := skip_white_space s2 ws.2
        match skip_text [58] ws2.1 with
        | none =>
          .error (.syntaxErr "invalid object syntax: expected colon after member name" ws2.2)
        | some s3 =>
          let ws3 := skip_white_space s3 ws2.2
          match parse_val fuel ws3.1 ws3.2 with
          | .error e => .error e
          | .ok (v, s4, l4) =>
            if (m.lookup nm).isSome then
              .error (.syntaxErr "invalid object syntax: duplicate member name" l4)
            else
              let idx := Int.ofNat cs.length
              let m2 := m ++ [(nm, idx)]
              let cs2 := cs ++ [(v.withIdx idx).withName nm]
              let ws4 := skip_white_space s4 l4
              match skip_text [125] ws4.1 with
              | some s5 => .ok (m2, cs2, s5, ws4.2)
              | none =>
                match skip_text [44] ws4.1 with
                | some s5 => parse_obj_loop fuel m2 cs2 s5 ws4.2
                | none =>
                  .error (.syntaxErr "invalid object syntax: expected comma or closing brace" ws4.2)

end

/-- `Parser::parse`: the root value, then only whitespace and comments up
to the end of the buffer.  The fuel bound exceeds any recursion the
input can drive. -/
def Parser_parse (s : List Nat) : Except Err VImpl :=
  match parse_val (2 * s.length + 8) s 1 with
  | .error e => .error e
  | .ok (v, s1, l1) =>
    let ws := skip_white_space s1 l1
    if ws.1 = [] then .ok v else .error (.syntaxErr "invalid value syntax" ws.2)

/-- `Json::parse` / `Json::parse_in_place`: both hand the buffer to the
parser (the copying entry point only duplicates the bytes first). -/
def Json_parse (s : List Nat) : Except Err VImpl :=
  Parser_parse s

/-- Specification-side decimal digits of a natural number, most
significant first (`Nat.digits` is little-endian, hence the reverse). -/
def digitsOf (m : Nat) : List Nat :=
  if m = 0 then [0] else (Nat.digits 10 m).reverse

/-- Specification-side decimal rendering of a signed integer as bytes:
an optional minus sign followed by the decimal digits of the magnitude,
no leading zeros. -/
def decimalRender (n : Int) : List Nat :=
  (if n < 0 then [45] else []) ++ (digitsOf n.natAbs).map (fun d => 48 + d)

/-- A sample integer node, used to instantiate universally quantified
theorems at a concrete input. -/
def sampleInt : VImpl :=
  .mk (.vint 5) false 1 [] (-1)

/-- A sample object node with one unaccessed Int member named "a",
used to instantiate universally quantified theorems. -/
def sampleObj : VImpl :=
  .mk (.vobj [([97], 0)] [.mk (.vint 1) false 1 [97] 0]) false 1 [] (-1)

/-!
## Theorems

Tree-traversal lemmas first, then one theorem per claim.
-/

theorem sizeOf_lt_of_mem_children {v c : VImpl} (h : c ∈ v.children) :
    sizeOf c < sizeOf v := by
  obtain ⟨d, u, l, n, i⟩ := v
  cases d <;> simp [VImpl.children, VImpl.data] at h
  · have := List.sizeOf_lt_of_mem h
    simp only [VImpl.mk.sizeOf_spec, VData.varr.sizeOf_spec]
    omega
  · have := List.sizeOf_lt_of_mem h
    simp only [VImpl.mk.sizeOf_spec, VData.vobj.sizeOf_spec]
    omega

theorem VImpl.strongInduction (motive : VImpl → Prop)
    (ind : ∀ v : VImpl, (∀ c ∈ v.children, motive c) → motive v) :
    ∀ v, motive v := fun v =>
  ind v (fun c hc => VImpl.strongInduction motive ind c)
termination_by v => sizeOf v
decreasing_by exact sizeOf_lt_of_mem_children hc

theorem rejectList_ok_iff (isObj : Bool) (cs : List VImpl)
    (IH : ∀ c ∈ cs, (do_reject_unknow_members c = .ok () ↔ allObjChildrenUsed c = true)) :
    (rejectList isObj cs = .ok () ↔
      (childNodesList isObj cs).all (fun p => !p.1 || p.2.used) = true) := by
  induction cs with
  | nil => simp [rejectList, childNodesList]
  | cons c rest ih =>
    have hc := IH c (List.mem_cons_self c rest)
    have hrest := ih (fun x hx => IH x (List.mem_cons_of_mem c hx))
    simp only [rejectList, childNodesList, List.all_cons, List.all_append]
    by_cases hif : (!c.used && isObj) = true
    · rw [if_pos hif]
      obtain ⟨hu, ho⟩ := (Bool.and_eq_true _ _).mp hif
      constructor
      · intro h; cases h
      · intro h
        rw [ho] at h
        simp only [Bool.not_eq_eq_eq_not, Bool.not_true] at hu
        simp [hu] at h
    · rw [if_neg hif]
      cases h1 : do_reject_unknow_members c with
      | error e =>
        have hnot : allObjChildrenUsed c ≠ true := fun hh => by
          have := hc.mpr hh; rw [h1] at this; cases this
        simp only [allObjChildrenUsed] at hnot
        constructor
        · intro h
          have h2 : (Except.error e : Except Err Unit) = Except.ok () := h
          cases h2
        · intro h
          exact absurd ((Bool.and_eq_true _ _).mp ((Bool.and_eq_true _ _).mp h).2).1 hnot
      | ok x =>
        obtain ⟨⟩ := x
        have hall : allObjChildrenUsed c = true := hc.mp h1
        simp only [allObjChildrenUsed] at hall
        show rejectList isObj rest = Except.ok () ↔ _
        rw [hrest, hall]
        have hhead : (!isObj || c.used) = true := by
          cases hb : c.used
          · cases hio : isObj
            · rfl
            · exact absurd (by rw [hb, hio]; rfl) hif
          · simp
        rw [hhead]
        simp

theorem reject_ok_iff (v : VImpl) :
    do_reject_unknow_members v = .ok () ↔ allObjChildrenUsed v = true := by
  induction v using VImpl.strongInduction with
  | _ v IH =>
    obtain ⟨d, u, l, n, i⟩ := v
    cases d with
    | varr cs =>
      have h := rejectList_ok_iff false cs
        (fun c hc => IH c (by simpa [VImpl.children, VImpl.data] using hc))
      simpa [do_reject_unknow_members, allObjChildrenUsed, childNodes] using h
    | vobj m cs =>
      have h := rejectList_ok_iff true cs
        (fun c hc => IH c (by simpa [VImpl.children, VImpl.data] using hc))
      simpa [do_reject_unknow_members, allObjChildrenUsed, childNodes] using h
    | vnull => simp [do_reject_unknow_members, allObjChildrenUsed, childNodes]
    | vbool b => simp [do_reject_unknow_members, allObjChildrenUsed, childNodes]
    | vint nn => simp [do_reject_unknow_members, allObjChildrenUsed, childNodes]
    | vf64 dd => simp [do_reject_unknow_members, allObjChildrenUsed, childNodes]
    | vstr ss => simp [do_reject_unknow_members, allObjChildrenUsed, childNodes]

theorem rejectList_error_cites (isObj : Bool) (cs : List VImpl)
    (IH : ∀ c ∈ cs, ∀ e, do_reject_unknow_members c = .error e →
      ∃ p ∈ childNodes c, p.1 = true ∧ p.2.used = false ∧
        e = .unknownMember p.2.name p.2.idx p.2.get_type p.2.line) :
    ∀ e, rejectList isObj cs = .error e →
      ∃ p ∈ childNodesList isObj cs, p.1 = true ∧ p.2.used = false ∧
        e = .unknownMember p.2.name p.2.idx p.2.get_type p.2.line := by
  induction cs with
  | nil => intro e h; cases h
  | cons c rest ih =>
    intro e h
    have hrest := ih (fun x hx => IH x (List.mem_cons_of_mem c hx))
    simp only [rejectList] at h
    by_cases hif : (!c.used && isObj) = true
    · rw [if_pos hif] at h
      obtain ⟨hu, ho⟩ := (Bool.and_eq_true _ _).mp hif
      injection h with h
      refine ⟨(isObj, c), ?_, ho, by simpa using hu, by rw [← h]⟩
      simp [childNodesList]
    · rw [if_neg hif] at h
      cases h1 : do_reject_unknow_members c with
      | error e1 =>
        rw [h1] at h
        have h2 : (Except.error e1 : Except Err Unit) = Except.error e := h
        injection h2 with h2
        rw [← h2]
        obtain ⟨p, hp, h3, h4, h5⟩ := IH c (List.mem_cons_self c rest) e1 h1
        refine ⟨p, ?_, h3, h4, h5⟩
        simp [childNodesList, List.mem_append, hp]
      | ok x =>
        obtain ⟨⟩ := x
        rw [h1] at h
        have h2 : rejectList isObj rest = Except.error e := h
        obtain ⟨p, hp, hh2, hh3, hh4⟩ := hrest e h2
        refine ⟨p, ?_, hh2, hh3, hh4⟩
        simp [childNodesList, List.mem_append, hp]

theorem reject_error_cites (v : VImpl) :
    ∀ e, do_reject_unknow_members v = .error e →
      ∃ p ∈ childNodes v, p.1 = true ∧ p.2.used = false ∧
        e = .unknownMember p.2.name p.2.idx p.2.get_type p.2.line := by
  induction v using VImpl.strongInduction with
  | _ v IH =>
    obtain ⟨d, u, l, n, i⟩ := v
    cases d with
    | varr cs =>
      have h := rejectList_error_cites false cs
        (fun c hc => IH c (by simpa [VImpl.children, VImpl.data] using hc))
      simpa [do_reject_unknow_members, childNodes] using h
    | vobj m cs =>
      have h := rejectList_error_cites true cs
        (fun c hc => IH c (by simpa [VImpl.children, VImpl.data] using hc))
      simpa [do_reject_unknow_members, childNodes] using h
    | vnull => intro e h; cases h
    | vbool b => intro e h; cases h
    | vint nn => intro e h; cases h
    | vf64 dd => intro e h; cases h
    | vstr ss => intro e h; cases h

theorem used_of_mem_childNodesList_ignoreList :
    ∀ (cs : List VImpl) (isObj : Bool) (p : Bool × VImpl),
      p ∈ childNodesList isObj (ignoreList cs) → p.2.used = true
  | [], _, p => by
    intro hp
    simp [ignoreList, childNodesList] at hp
  | (.mk d u l n i) :: rest, isObj, p => by
    intro hp
    simp only [ignoreList, childNodesList, List.mem_cons, List.mem_append] at hp
    rcases hp with h1 | h2 | h3
    · subst h1; rfl
    · cases d with
      | varr cs2 =>
        refine used_of_mem_childNodesList_ignoreList cs2 false p ?_
        rw [show ignoreChildren (VData.varr cs2) = VData.varr (ignoreList cs2) from
          by simp [ignoreChildren]] at h2
        rw [show childNodes (.mk (.varr (ignoreList cs2)) true l n i)
              = childNodesList false (ignoreList cs2) from by simp [childNodes]] at h2
        exact h2
      | vobj m2 cs2 =>
        refine used_of_mem_childNodesList_ignoreList cs2 true p ?_
        rw [show ignoreChildren (VData.vobj m2 cs2) = VData.vobj m2 (ignoreList cs2) from
          by simp [ignoreChildren]] at h2
        rw [show childNodes (.mk (.vobj m2 (ignoreList cs2)) true l n i)
              = childNodesList true (ignoreList cs2) from by simp [childNodes]] at h2
        exact h2
      | vnull =>
        rw [show ignoreChildren VData.vnull = VData.vnull from by simp [ignoreChildren]] at h2
        rw [show childNodes (.mk VData.vnull true l n i) = [] from by simp [childNodes]] at h2
        cases h2
      | vbool b =>
        rw [show ignoreChildren (VData.vbool b) = VData.vbool b from
          by simp [ignoreChildren]] at h2
        rw [show childNodes (.mk (VData.vbool b) true l n i) = [] from
          by simp [childNodes]] at h2
        cases h2
      | vint nn =>
        rw [show ignoreChildren (VData.vint nn) = VData.vint nn from
          by simp [ignoreChildren]] at h2
        rw [show childNodes (.mk (VData.vint nn) true l n i) = [] from
          by simp [childNodes]] at h2
        cases h2
      | vf64 dd =>
        rw [show ignoreChildren (VData.vf64 dd) = VData.vf64 dd from
          by simp [ignoreChildren]] at h2
        rw [show childNodes (.mk (VData.vf64 dd) true l n i) = [] from
          by simp [childNodes]] at h2
        cases h2
      | vstr ss =>
        rw [show ignoreChildren (VData.vstr ss) = VData.vstr ss from
          by simp [ignoreChildren]] at h2
        rw [show childNodes (.mk (VData.vstr ss) true l n i) = [] from
          by simp [childNodes]] at h2
        cases h2
    · exact used_of_mem_childNodesList_ignoreList rest isObj p h3
termination_by cs _ _ => sizeOf cs

theorem allObjChildrenUsed_ignore (v : VImpl) :
    allObjChildrenUsed (do_ignore_members v) = true := by
  obtain ⟨d, u, l, n, i⟩ := v
  show allObjChildrenUsed (.mk (ignoreChildren d) u l n i) = true
  cases d with
  | varr cs =>
    rw [show ignoreChildren (VData.varr cs) = VData.varr (ignoreList cs) from
      by simp [ignoreChildren]]
    simp only [allObjChildrenUsed]
    rw [show childNodes (.mk (.varr (ignoreList cs)) u l n i)
          = childNodesList false (ignoreList cs) from by simp [childNodes]]
    rw [List.all_eq_true]
    intro p hp
    rw [used_of_mem_childNodesList_ignoreList cs false p hp]
    simp
  | vobj m cs =>
    rw [show ignoreChildren (VData.vobj m cs) = VData.vobj m (ignoreList cs) from
      by simp [ignoreChildren]]
    simp only [allObjChildrenUsed]
    rw [show childNodes (.mk (.vobj m (ignoreList cs)) u l n i)
          = childNodesList true (ignoreList cs) from by simp [childNodes]]
    rw [List.all_eq_true]
    intro p hp
    rw [used_of_mem_childNodesList_ignoreList cs true p hp]
    simp
  | vnull =>
    rw [show ignoreChildren VData.vnull = VData.vnull from by simp [ignoreChildren]]
    simp only [allObjChildrenUsed]
    rw [show childNodes (.mk VData.vnull u l n i) = [] from by simp [childNodes]]
    rfl
  | vbool b =>
    rw [show ignoreChildren (VData.vbool b) = VData.vbool b from by simp [ignoreChildren]]
    simp only [allObjChildrenUsed]
    rw [show childNodes (.mk (VData.vbool b) u l n i) = [] from by simp [childNodes]]
    rfl
  | vint nn =>
    rw [show ignoreChildren (VData.vint nn) = VData.vint nn from by simp [ignoreChildren]]
    simp only [allObjChildrenUsed]
    rw [show childNodes (.mk (VData.vint nn) u l n i) = [] from by simp [childNodes]]
    rfl
  | vf64 dd =>
    rw [show ignoreChildren (VData.vf64 dd) = VData.vf64 dd from by simp [ignoreChildren]]
    simp only [allObjChildrenUsed]
    rw [show childNodes (.mk (VData.vf64 dd) u l n i) = [] from by simp [childNodes]]
    rfl
  | vstr ss =>
    rw [show ignoreChildren (VData.vstr ss) = VData.vstr ss from by simp [ignoreChildren]]
    simp only [allObjChildrenUsed]
    rw [show childNodes (.mk (VData.vstr ss) u l n i) = [] from by simp [childNodes]]
    rfl

theorem mem_childNodesList_of_mem (isObj : Bool) (cs : List VImpl) (c : VImpl)
    (h : c ∈ cs) : (isObj, c) ∈ childNodesList isObj cs := by
  induction cs with
  | nil => cases h
  | cons c2 rest ih =>
    rcases List.mem_cons.mp h with h1 | h2
    · subst h1
      rw [show childNodesList isObj (c :: rest)
            = (isObj, c) :: (childNodes c ++ childNodesList isObj rest) from
          by simp [childNodesList]]
      exact List.mem_cons_self _ _
    · rw [show childNodesList isObj (c2 :: rest)
            = (isObj, c2) :: (childNodes c2 ++ childNodesList isObj rest) from
          by simp [childNodesList]]
      exact List.mem_cons_of_mem _ (List.mem_append_right _ (ih h2))

theorem listFlagsLE_refl_of (cs : List VImpl) (h : ∀ c ∈ cs, flagsLE c c = true) :
    listFlagsLE cs cs = true := by
  induction cs with
  | nil => simp [listFlagsLE]
  | cons c rest ih =>
    rw [show listFlagsLE (c :: rest) (c :: rest)
          = (flagsLE c c && listFlagsLE rest rest) from by simp [listFlagsLE]]
    rw [h c (List.mem_cons_self c rest),
      ih (fun x hx => h x (List.mem_cons_of_mem c hx))]
    rfl

theorem flagsLE_refl (v : VImpl) : flagsLE v v = true := by
  induction v using VImpl.strongInduction with
  | _ v IH =>
    obtain ⟨d, u, l, n, i⟩ := v
    have hBool : (!u || u) = true := by cases u <;> rfl
    cases d with
    | varr cs =>
      have hl : listFlagsLE cs cs = true := listFlagsLE_refl_of cs
        (fun c hc => IH c (by simpa [VImpl.children, VImpl.data] using hc))
      simp [flagsLE, dataFlagsLE, hBool, hl]
    | vobj m cs =>
      have hl : listFlagsLE cs cs = true := listFlagsLE_refl_of cs
        (fun c hc => IH c (by simpa [VImpl.children, VImpl.data] using hc))
      simp [flagsLE, dataFlagsLE, hBool, hl]
    | vnull => simp [flagsLE, dataFlagsLE, hBool]
    | vbool b => simp [flagsLE, dataFlagsLE, hBool]
    | vint nn => simp [flagsLE, dataFlagsLE, hBool]
    | vf64 dd => simp [flagsLE, dataFlagsLE, hBool]
    | vstr ss => simp [flagsLE, dataFlagsLE, hBool]

theorem dataFlagsLE_refl (d : VData VImpl) : dataFlagsLE d d = true := by
  cases d <;> simp [dataFlagsLE] <;>
    exact listFlagsLE_refl_of _ (fun c _ => flagsLE_refl c)

theorem VImpl.used_mark (c : VImpl) : c.mark_as_used.used = true := by
  obtain ⟨d, u, l, n, i⟩ := c; rfl

theorem flagsLE_mark (c : VImpl) : flagsLE c c.mark_as_used = true := by
  obtain ⟨d, u, l, n, i⟩ := c
  show flagsLE (.mk d u l n i) (.mk d true l n i) = true
  simp [flagsLE, dataFlagsLE_refl d]

theorem listFlagsLE_markAt (cs : List VImpl) (k : Nat) :
    listFlagsLE cs (markAt cs k) = true := by
  induction cs generalizing k with
  | nil => simp [markAt, listFlagsLE]
  | cons c rest ih =>
    cases k with
    | zero =>
      rw [show markAt (c :: rest) 0 = c.mark_as_used :: rest from rfl]
      rw [show listFlagsLE (c :: rest) (c.mark_as_used :: rest)
            = (flagsLE c c.mark_as_used && listFlagsLE rest rest) from
          by simp [listFlagsLE]]
      rw [flagsLE_mark c, listFlagsLE_refl_of rest (fun x _ => flagsLE_refl x)]
      rfl
    | succ k2 =>
      rw [show markAt (c :: rest) (k2 + 1) = c :: markAt rest k2 from rfl]
      rw [show listFlagsLE (c :: rest) (c :: markAt rest k2)
            = (flagsLE c c && listFlagsLE rest (markAt rest k2)) from
          by simp [listFlagsLE]]
      rw [flagsLE_refl c, ih k2]
      rfl

theorem arr_get_element_spec (v : VImpl) (idx : Int) (c v2 : VImpl)
    (h : Arr_get_element v idx = .ok (c, v2)) :
    c.used = true ∧ flagsLE v v2 = true := by
  unfold Arr_get_element at h
  cases hg : ArrImpl_get_element v idx with
  | error e => rw [hg] at h; cases h
  | ok c0 =>
    rw [hg] at h
    simp only [Except.ok.injEq, Prod.mk.injEq] at h
    obtain ⟨h1, h2⟩ := h
    subst h1
    subst h2
    refine ⟨VImpl.used_mark c0, ?_⟩
    obtain ⟨d, u, l, n, i⟩ := v
    have hBool : (!u || u) = true := by cases u <;> rfl
    cases d with
    | varr cs =>
      show flagsLE (.mk (.varr cs) u l n i)
        (.mk (.varr (markAt cs idx.toNat)) u l n i) = true
      simp [flagsLE, dataFlagsLE, hBool, listFlagsLE_markAt, VImpl.children, VImpl.data]
    | vobj m cs =>
      show flagsLE (.mk (.vobj m cs) u l n i)
        (.mk (.vobj m (markAt cs idx.toNat)) u l n i) = true
      simp [flagsLE, dataFlagsLE, hBool, listFlagsLE_markAt, VImpl.children, VImpl.data]
    | vnull => exact flagsLE_refl _
    | vbool b => exact flagsLE_refl _
    | vint nn => exact flagsLE_refl _
    | vf64 dd => exact flagsLE_refl _
    | vstr ss => exact flagsLE_refl _

theorem obj_get_member_some_spec (v : VImpl) (nm : List Nat) (req : Bool)
    (c v2 : VImpl) (h : Obj_get_member v nm req = .ok (some c, v2)) :
    c.used = true ∧ flagsLE v v2 = true := by
  unfold Obj_get_member at h
  cases hidx : Obj_get_member_idx v nm req with
  | error e => rw [hidx] at h; cases h
  | ok idx =>
    rw [hidx] at h
    simp only at h
    split at h
    · cases hg : Arr_get_element v idx with
      | error e => rw [hg] at h; cases h
      | ok r =>
        obtain ⟨c0, v0⟩ := r
        rw [hg] at h
        simp only [Except.ok.injEq, Prod.mk.injEq, Option.some.injEq] at h
        obtain ⟨h1, h2⟩ := h
        subst h1
        subst h2
        exact arr_get_element_spec v idx c0 v0 hg
    · simp at h

theorem obj_get_member_none_spec (v : VImpl) (nm : List Nat) (req : Bool)
    (v2 : VImpl) (h : Obj_get_member v nm req = .ok (none, v2)) : v2 = v := by
  unfold Obj_get_member at h
  cases hidx : Obj_get_member_idx v nm req with
  | error e => rw [hidx] at h; cases h
  | ok idx =>
    rw [hidx] at h
    simp only at h
    split at h
    · cases hg : Arr_get_element v idx with
      | error e => rw [hg] at h; cases h
      | ok r =>
        obtain ⟨c0, v0⟩ := r
        rw [hg] at h
        simp at h
    · simp only [Except.ok.injEq, Prod.mk.injEq] at h
      exact h.2.symm

theorem listFlagsLE_ignoreList_of (cs : List VImpl)
    (h : ∀ c ∈ cs, dataFlagsLE c.data (ignoreChildren c.data) = true) :
    listFlagsLE cs (ignoreList cs) = true := by
  induction cs with
  | nil => simp [ignoreList, listFlagsLE]
  | cons c rest ih =>
    obtain ⟨d, u, l, n, i⟩ := c
    have hd : dataFlagsLE d (ignoreChildren d) = true :=
      h _ (List.mem_cons_self _ _)
    have hrest : listFlagsLE rest (ignoreList rest) = true :=
      ih (fun x hx => h x (List.mem_cons_of_mem _ hx))
    rw [show ignoreList ((VImpl.mk d u l n i) :: rest)
          = (VImpl.mk (ignoreChildren d) true l n i) :: ignoreList rest from
        by simp [ignoreList]]
    rw [show listFlagsLE ((VImpl.mk d u l n i) :: rest)
          ((VImpl.mk (ignoreChildren d) true l n i) :: ignoreList rest)
          = (flagsLE (.mk d u l n i) (.mk (ignoreChildren d) true l n i) &&
             listFlagsLE rest (ignoreList rest)) from by simp [listFlagsLE]]
    rw [show flagsLE (.mk d u l n i) (.mk (ignoreChildren d) true l n i)
          = ((!u || true) && (l == l) && (n == n) && (i == i) &&
             dataFlagsLE d (ignoreChildren d)) from by simp [flagsLE]]
    rw [hd, hrest]
    simp

theorem dataFlagsLE_ignoreChildren_node (v : VImpl) :
    dataFlagsLE v.data (ignoreChildren v.data) = true := by
  induction v using VImpl.strongInduction with
  | _ v IH =>
    obtain ⟨d, u, l, n, i⟩ := v
    show dataFlagsLE d (ignoreChildren d) = true
    cases d with
    | vnull =>
      rw [show ignoreChildren VData.vnull = VData.vnull from by simp [ignoreChildren]]
      simp [dataFlagsLE]
    | vbool b =>
      rw [show ignoreChildren (VData.vbool b) = VData.vbool b from by simp [ignoreChildren]]
      simp [dataFlagsLE]
    | vint nn =>
      rw [show ignoreChildren (VData.vint nn) = VData.vint nn from by simp [ignoreChildren]]
      simp [dataFlagsLE]
    | vf64 dd =>
      rw [show ignoreChildren (VData.vf64 dd) = VData.vf64 dd from by simp [ignoreChildren]]
      simp [dataFlagsLE]
    | vstr ss =>
      rw [show ignoreChildren (VData.vstr ss) = VData.vstr ss from by simp [ignoreChildren]]
      simp [dataFlagsLE]
    | varr cs =>
      have hl : listFlagsLE cs (ignoreList cs) = true :=
        listFlagsLE_ignoreList_of cs
          (fun c hc => IH c (by simpa [VImpl.children, VImpl.data] using hc))
      rw [show ignoreChildren (VData.varr cs) = VData.varr (ignoreList cs) from
        by simp [ignoreChildren]]
      rw [show dataFlagsLE (VData.varr cs) (VData.varr (ignoreList cs))
            = listFlagsLE cs (ignoreList cs) from by simp [dataFlagsLE]]
      exact hl
    | vobj m cs =>
      have hl : listFlagsLE cs (ignoreList cs) = true :=
        listFlagsLE_ignoreList_of cs
          (fun c hc => IH c (by simpa [VImpl.children, VImpl.data] using hc))
      rw [show ignoreChildren (VData.vobj m cs) = VData.vobj m (ignoreList cs) from
        by simp [ignoreChildren]]
      rw [show dataFlagsLE (VData.vobj m cs) (VData.vobj m (ignoreList cs))
            = ((m == m) && listFlagsLE cs (ignoreList cs)) from by simp [dataFlagsLE]]
      rw [hl]
      simp

theorem dataFlagsLE_ignoreChildren (d : VData VImpl) :
    dataFlagsLE d (ignoreChildren d) = true :=
  dataFlagsLE_ignoreChildren_node (.mk d false 0 [] 0)

theorem flagsLE_ignore (v : VImpl) : flagsLE v (do_ignore_members v) = true := by
  obtain ⟨d, u, l, n, i⟩ := v
  show flagsLE (.mk d u l n i) (.mk (ignoreChildren d) u l n i) = true
  rw [show flagsLE (.mk d u l n i) (.mk (ignoreChildren d) u l n i)
        = ((!u || u) && (l == l) && (n == n) && (i == i) &&
           dataFlagsLE d (ignoreChildren d)) from by simp [flagsLE]]
  rw [dataFlagsLE_ignoreChildren d]
  have hBool : (!u || u) = true := by cases u <;> rfl
  simp [hBool]

/-- C1 counterexample: the input `[1, 2,]`, which the claim says fails
with a syntax error, in fact parses successfully to the array [1, 2]
(the element loops re-check for the closing bracket at the top of every
iteration, which also accepts a bracket right after a comma). -/
theorem claim_C1_counterexample :
    Json_parse (bytesOf "[1, 2,]") =
      .ok (.mk (.varr [.mk (.vint 1) false 1 [] 0, .mk (.vint 2) false 1 [] 1])
        false 1 [] (-1)) := by
  rfl

/-- C1 (amended): a trailing comma immediately before the closing
bracket of an array or object is accepted and ignored: `[1, 2,]` parses
to the two-element array [1, 2], and the object `{"a":1,}` parses to the
one-member object. -/
theorem claim_C1 :
    Json_parse (bytesOf "[1, 2,]") =
      .ok (.mk (.varr [.mk (.vint 1) false 1 [] 0, .mk (.vint 2) false 1 [] 1])
        false 1 [] (-1))
  ∧ Json_parse (bytesOf "\x7b\"a\":1,\x7d") =
      .ok (.mk (.vobj [([97], 0)] [.mk (.vint 1) false 1 [97] 0]) false 1 [] (-1)) := by
  exact ⟨rfl, rfl⟩

/-- C2: `reject_unknow_members(v)` succeeds iff every direct child of
every Object in the subtree rooted at `v` has its accessed flag set;
otherwise it fails with an unknown-member error citing an unaccessed
direct child of an Object in that subtree (so array elements, which are
enumerated with an `isObj = false` tag, are never cited, but their
subtrees are descended into).  Marking a subtree with `ignore_members`
always makes the check succeed. -/
theorem claim_C2 (v : VImpl) :
    (do_reject_unknow_members v = .ok () ↔ allObjChildrenUsed v = true)
  ∧ (∀ e, do_reject_unknow_members v = .error e →
      ∃ p ∈ childNodes v, p.1 = true ∧ p.2.used = false ∧
        e = .unknownMember p.2.name p.2.idx p.2.get_type p.2.line)
  ∧ do_reject_unknow_members (do_ignore_members v) = .ok () :=
  ⟨reject_ok_iff v, reject_error_cites v,
    (reject_ok_iff _).mpr (allObjChildrenUsed_ignore v)⟩

/-- C2 witness: on a concrete object with one unaccessed member, the
check fails citing that member. -/
theorem claim_C2_witness :
    do_reject_unknow_members sampleObj = .error (.unknownMember [97] 0 vtInt 1)
  ∧ ∃ p ∈ childNodes sampleObj, p.1 = true ∧ p.2.used = false ∧
      Err.unknownMember [97] 0 vtInt 1
        = .unknownMember p.2.name p.2.idx p.2.get_type p.2.line := by
  have he : do_reject_unknow_members sampleObj
      = .error (.unknownMember [97] 0 vtInt 1) := by
    rw [show do_reject_unknow_members sampleObj
          = rejectList true [.mk (.vint 1) false 1 [97] 0] from
        by simp [sampleObj, do_reject_unknow_members]]
    rw [show rejectList true [.mk (.vint 1) false 1 [97] 0]
          = .error (.unknownMember [97] 0 vtInt 1) from by
        simp [rejectList, VImpl.used, VImpl.name, VImpl.idx, VImpl.get_type,
          VImpl.data, VImpl.line]]
  exact ⟨he, (claim_C2 sampleObj).2.1 _ he⟩

/-- C9: the accessed flag is monotonic.  The element getter and the
member getter mark the returned value as accessed and only ever raise
flags (`flagsLE`) in the tree; an absent optional member leaves the tree
unchanged; and `ignore_members` only raises flags. -/
theorem claim_C9 (v : VImpl) (idx : Int) (nm : List Nat) (req : Bool) :
    (∀ c v2, Arr_get_element v idx = .ok (c, v2) →
      c.used = true ∧ flagsLE v v2 = true)
  ∧ (∀ c v2, Obj_get_member v nm req = .ok (some c, v2) →
      c.used = true ∧ flagsLE v v2 = true)
  ∧ (∀ v2, Obj_get_member v nm req = .ok (none, v2) → v2 = v)
  ∧ flagsLE v (do_ignore_members v) = true :=
  ⟨fun c v2 h => arr_get_element_spec v idx c v2 h,
   fun c v2 h => obj_get_member_some_spec v nm req c v2 h,
   fun v2 h => obj_get_member_none_spec v nm req v2 h,
   flagsLE_ignore v⟩

/-- C9 witness: reading element 0 of the sample object marks it. -/
theorem claim_C9_witness :
    (VImpl.mk (.vint 1) true 1 [97] 0).used = true
  ∧ flagsLE sampleObj
      (.mk (.vobj [([97], 0)] [.mk (.vint 1) true 1 [97] 0]) false 1 [] (-1)) = true :=
  (claim_C9 sampleObj 0 [] false).1
    (.mk (.vint 1) true 1 [97] 0)
    (.mk (.vobj [([97], 0)] [.mk (.vint 1) true 1 [97] 0]) false 1 [] (-1))
    rfl

/-- C10: `Obj::get_member_name` goes through the internal accessor, so
it returns the member name without setting the accessed flag, and a
member whose name alone was retrieved still makes
`reject_unknow_members` fail; the public element getter and the member
getter do set the flag of the value they return. -/
theorem claim_C10 (v : VImpl) (idx : Int) :
    (∀ nm, Obj_get_member_name v idx = .ok nm →
      ∃ c, ArrImpl_get_element v idx = .ok c ∧ nm = c.name)
  ∧ (v.get_type = vtObj → ∀ c, ArrImpl_get_element v idx = .ok c →
      c.used = false → ∃ e, do_reject_unknow_members v = .error e)
  ∧ (∀ c v2, Arr_get_element v idx = .ok (c, v2) → c.used = true)
  ∧ (∀ nm req c v2, Obj_get_member v nm req = .ok (some c, v2) → c.used = true) := by
  refine ⟨?_, ?_, ?_, ?_⟩
  · intro nm h
    unfold Obj_get_member_name at h
    cases hg : ArrImpl_get_element v idx with
    | error e => rw [hg] at h; cases h
    | ok c =>
      rw [hg] at h
      refine ⟨c, rfl, ?_⟩
      have h2 : Except.ok (ε := Err) c.name = Except.ok nm := h
      injection h2 with h2
      exact h2.symm
  · intro hobj c hg hu
    have hmem : c ∈ v.children := by
      unfold ArrImpl_get_element at hg
      dsimp only at hg
      split at hg
      · injection hg with hg
        rw [← hg]
        exact List.get_mem _ _ _
      · cases hg
    obtain ⟨d, u, l, n, i⟩ := v
    have hd : ∃ m cs, d = VData.vobj m cs := by
      cases d <;>
        first
        | exact ⟨_, _, rfl⟩
        | (simp [VImpl.get_type, VImpl.data, vtNull, vtBool, vtInt, vtF64,
            vtStr, vtArr, vtObj] at hobj)
    obtain ⟨m, cs, rfl⟩ := hd
    have hcs : c ∈ cs := by simpa [VImpl.children, VImpl.data] using hmem
    have hnode : (true, c) ∈ childNodes (VImpl.mk (VData.vobj m cs) u l n i) := by
      rw [show childNodes (VImpl.mk (VData.vobj m cs) u l n i)
            = childNodesList true cs from by simp [childNodes]]
      exact mem_childNodesList_of_mem true cs c hcs
    have hfalse : allObjChildrenUsed (VImpl.mk (VData.vobj m cs) u l n i) ≠ true := by
      intro hall
      have := List.all_eq_true.mp hall _ hnode
      rw [hu] at this
      cases this
    cases hres : do_reject_unknow_members (VImpl.mk (VData.vobj m cs) u l n i) with
    | error e => exact ⟨e, rfl⟩
    | ok x =>
      obtain ⟨⟩ := x
      exact absurd ((reject_ok_iff _).mp hres) hfalse
  · intro c v2 h
    exact (arr_get_element_spec v idx c v2 h).1
  · intro nm req c v2 h
    exact (obj_get_member_some_spec v nm req c v2 h).1

/-- C10 witness: retrieving the member name of the sample object's only
member leaves it unaccessed, so the unknown-member check still fails. -/
theorem claim_C10_witness :
    (∃ c, ArrImpl_get_element sampleObj 0 = .ok c ∧ ([97] : List Nat) = c.name)
  ∧ (∃ e, do_reject_unknow_members sampleObj = .error e) := by
  refine ⟨(claim_C10 sampleObj 0).1 [97] rfl, ?_⟩
  exact (claim_C10 sampleObj 0).2.1 rfl (.mk (.vint 1) false 1 [97] 0) rfl rfl

theorem hexVal_lt (c d : Nat) (h : hexVal c = some d) : d < 16 := by
  unfold hexVal at h
  split_ifs at h with h1 h2 h3
  · injection h with h; omega
  · injection h with h; omega
  · injection h with h; omega

theorem parse_hex4_go_lt :
    ∀ (k code : Nat) (s : List Nat) (line : Int) (r : Nat) (s2 : List Nat),
      parse_hex4_go k code s line = .ok (r, s2) → r < (code + 1) * 16 ^ k := by
  intro k
  induction k with
  | zero =>
    intro code s line r s2 h
    simp only [parse_hex4_go, Except.ok.injEq, Prod.mk.injEq] at h
    omega
  | succ k ih =>
    intro code s line r s2 h
    simp only [parse_hex4_go] at h
    cases hv : hexVal (s.headD 0) with
    | none => rw [hv] at h; cases h
    | some d =>
      rw [hv] at h
      have hd := hexVal_lt _ _ hv
      have hr := ih _ _ line _ _ h
      have hstep : (code * 16 + d + 1) * 16 ^ k ≤ ((code + 1) * 16) * 16 ^ k :=
        Nat.mul_le_mul_right _ (by omega)
      calc r < (code * 16 + d + 1) * 16 ^ k := hr
        _ ≤ ((code + 1) * 16) * 16 ^ k := hstep
        _ = (code + 1) * 16 ^ (k + 1) := by ring

theorem parse_hex4_lt (s : List Nat) (line : Int) (code : Nat) (s1 : List Nat)
    (h : parse_hex4 s line = .ok (code, s1)) : code ≤ 0xFFFF := by
  have hb := parse_hex4_go_lt 4 0 s line code s1 h
  norm_num at hb
  omega

theorem lor_or_192 (y : Nat) (hy : y < 64) : 192 ||| y = 192 + y := by
  interval_cases y <;> rfl

theorem lor_or_128 (y : Nat) (hy : y < 64) : 128 ||| y = 128 + y := by
  interval_cases y <;> rfl

theorem lor_or_224 (y : Nat) (hy : y < 16) : 224 ||| y = 224 + y := by
  interval_cases y <;> rfl

theorem lor_or_240 (y : Nat) (hy : y < 8) : 240 ||| y = 240 + y := by
  interval_cases y <;> rfl

theorem utf8_emit_eq_spec (code : Nat) (h : code ≤ 0x10FFFF) :
    utf8_emit code = utf8Spec code := by
  have hand255 : ∀ x : Nat, x &&& 255 = x % 256 :=
    fun x => Nat.and_pow_two_sub_one_eq_mod x 8
  have hand63 : ∀ x : Nat, x &&& 63 = x % 64 :=
    fun x => Nat.and_pow_two_sub_one_eq_mod x 6
  have hsr6 : code >>> 6 = code / 64 := Nat.shiftRight_eq_div_pow code 6
  have hsr12 : code >>> 12 = code / 4096 := Nat.shiftRight_eq_div_pow code 12
  have hsr18 : code >>> 18 = code / 262144 := Nat.shiftRight_eq_div_pow code 18
  unfold utf8_emit utf8Spec
  split_ifs with h1 h2 h3
  · rw [show code &&& 255 = code from by rw [hand255]; omega]
  · rw [show (code >>> 6) &&& 255 = code / 64 from by rw [hsr6, hand255]; omega]
    rw [show code &&& 63 = code % 64 from hand63 code]
    rw [lor_or_192 _ (by omega), lor_or_128 _ (by omega)]
    rw [show (192 + code / 64) &&& 255 = 192 + code / 64 from by rw [hand255]; omega]
    rw [show (128 + code % 64) &&& 255 = 128 + code % 64 from by rw [hand255]; omega]
  · rw [show (code >>> 12) &&& 255 = code / 4096 from by rw [hsr12, hand255]; omega]
    rw [show (code >>> 6) &&& 63 = code / 64 % 64 from by rw [hsr6, hand63]]
    rw [show code &&& 63 = code % 64 from hand63 code]
    rw [lor_or_224 _ (by omega), lor_or_128 (code / 64 % 64) (by omega),
      lor_or_128 (code % 64) (by omega)]
    rw [show (224 + code / 4096) &&& 255 = 224 + code / 4096 from by rw [hand255]; omega]
    rw [show (128 + code / 64 % 64) &&& 255 = 128 + code / 64 % 64 from
      by rw [hand255]; omega]
    rw [show (128 + code % 64) &&& 255 = 128 + code % 64 from by rw [hand255]; omega]
  · rw [show (code >>> 18) &&& 255 = code / 262144 from by rw [hsr18, hand255]; omega]
    rw [show (code >>> 12) &&& 63 = code / 4096 % 64 from by rw [hsr12, hand63]]
    rw [show (code >>> 6) &&& 63 = code / 64 % 64 from by rw [hsr6, hand63]]
    rw [show code &&& 63 = code % 64 from hand63 code]
    rw [lor_or_240 _ (by omega), lor_or_128 (code / 4096 % 64) (by omega),
      lor_or_128 (code / 64 % 64) (by omega), lor_or_128 (code % 64) (by omega)]
    rw [show (240 + code / 262144) &&& 255 = 240 + code / 262144 from
      by rw [hand255]; omega]
    rw [show (128 + code / 4096 % 64) &&& 255 = 128 + code / 4096 % 64 from
      by rw [hand255]; omega]
    rw [show (128 + code / 64 % 64) &&& 255 = 128 + code / 64 % 64 from
      by rw [hand255]; omega]
    rw [show (128 + code % 64) &&& 255 = 128 + code % 64 from by rw [hand255]; omega]

/-- C4: decoding a `\u` escape.  A code unit in the low-surrogate range
without a preceding high surrogate fails with the bad-UTF syntax error;
a code unit in the high-surrogate range requires an immediately
following `\u` escape in the low-surrogate range, the two combined as
`((high - 0xD800) <<< 10 ||| (low - 0xDC00)) + 0x10000`; the resulting
code point is appended to the buffer as standard 1-, 2-, 3- or 4-byte
UTF-8 (`utf8Spec`). -/
theorem claim_C4 (s : List Nat) (line : Int) (out : List Nat) (code : Nat)
    (s1 : List Nat) (h : parse_hex4 s line = .ok (code, s1)) :
    (0xDC00 ≤ code → code ≤ 0xDFFF →
      parse_encoding s line out =
        .error (.syntaxErr "invalid string syntax: bad utf-16 codepoint" line))
  ∧ (0xD800 ≤ code → code ≤ 0xDBFF →
      (skip_text [92, 117] s1 = none →
        parse_encoding s line out =
          .error (.syntaxErr "invalid string syntax: bad utf-16 codepoint" line))
      ∧ (∀ s2, skip_text [92, 117] s1 = some s2 →
          (∀ e, parse_hex4 s2 line = .error e → parse_encoding s line out = .error e)
          ∧ (∀ code2 s3, parse_hex4 s2 line = .ok (code2, s3) →
              ((code2 < 0xDC00 ∨ 0xDFFF < code2) →
                parse_encoding s line out =
                  .error (.syntaxErr "invalid string syntax: bad utf-16 codepoint" line))
              ∧ (0xDC00 ≤ code2 → code2 ≤ 0xDFFF →
                  parse_encoding s line out =
                    .ok (out ++
                      utf8Spec ((((code - 0xD800) <<< 10) ||| (code2 - 0xDC00)) + 0x10000),
                      s3)))))
  ∧ ((code < 0xD800 ∨ 0xDFFF < code) → code ≤ 0xFFFF ∧
      parse_encoding s line out = .ok (out ++ utf8Spec code, s1)) := by
  have hcode : code ≤ 0xFFFF := parse_hex4_lt s line code s1 h
  have hunf : parse_encoding s line out =
      (if 0xDC00 ≤ code ∧ code ≤ 0xDFFF then
        .error (.syntaxErr "invalid string syntax: bad utf-16 codepoint" line)
      else
        match surrogate_step code s1 line with
        | .error e => .error e
        | .ok (c2, s2) => .ok (out ++ utf8_emit c2, s2)) := by
    unfold parse_encoding
    rw [h]
  refine ⟨?_, ?_, ?_⟩
  · intro hlo hhi
    rw [hunf, if_pos ⟨hlo, hhi⟩]
  · intro hlo hhi
    rw [hunf, if_neg (by omega)]
    have hstep : surrogate_step code s1 line =
        (match skip_text [92, 117] s1 with
        | none => .error (.syntaxErr "invalid string syntax: bad utf-16 codepoint" line)
        | some s2 =>
          match parse_hex4 s2 line with
          | .error e => .error e
          | .ok (code2, s3) =>
            if code2 < 0xDC00 ∨ code2 > 0xDFFF then
              .error (.syntaxErr "invalid string syntax: bad utf-16 codepoint" line)
            else
              .ok ((((code - 0xD800) <<< 10) ||| (code2 - 0xDC00)) + 0x10000, s3)) := by
      unfold surrogate_step
      rw [if_pos ⟨hlo, hhi⟩]
    constructor
    · intro hsk
      rw [hstep, hsk]
    · intro s2 hsk
      rw [hstep, hsk]
      dsimp only
      constructor
      · intro e he
        rw [he]
      · intro code2 s3 h2
        rw [h2]
        dsimp only
        constructor
        · intro hout
          rw [if_pos (by omega)]
        · intro h2lo h2hi
          rw [if_neg (by omega)]
          dsimp only
          have h20 : (2 : Nat) ^ 20 = 1048576 := by norm_num
          have hb : (((code - 0xD800) <<< 10) ||| (code2 - 0xDC00)) < 2 ^ 20 := by
            refine Nat.or_lt_two_pow ?_ ?_
            · rw [Nat.shiftLeft_eq_mul_pow]
              have : (2 : Nat) ^ 10 = 1024 := by norm_num
              rw [this, h20]
              omega
            · rw [h20]
              omega
          rw [h20] at hb
          have hA : (((code - 0xD800) <<< 10) ||| (code2 - 0xDC00)) + 0x10000
              ≤ 0x10FFFF := by omega
          rw [utf8_emit_eq_spec _ hA]
  · intro hout
    refine ⟨hcode, ?_⟩
    rw [hunf, if_neg (by omega)]
    have hstep : surrogate_step code s1 line = .ok (code, s1) := by
      unfold surrogate_step
      rw [if_neg (by omega)]
    rw [hstep]
    dsimp only
    rw [utf8_emit_eq_spec code (by omega)]

/-- C4 witness: the surrogate pair `\uD834\uDD1E` (U+1D11E) appends the
four bytes F0 9D 84 9E, and an orphan low surrogate fails. -/
theorem claim_C4_witness :
    parse_encoding (bytesOf "d834\\udd1e\" tail") 1 [] =
      .ok ([0xF0, 0x9D, 0x84, 0x9E], bytesOf "\" tail")
  ∧ parse_encoding (bytesOf "dd1e\" tail") 1 [] =
      .error (.syntaxErr "invalid string syntax: bad utf-16 codepoint" 1) := by
  constructor
  · have h := ((claim_C4 (bytesOf "d834\\udd1e\" tail") 1 [] 0xD834
      (bytesOf "\\udd1e\" tail") rfl).2.1 (by norm_num) (by norm_num)).2
      (bytesOf "dd1e\" tail") rfl
    have h2 := (h.2 0xDD1E (bytesOf "\" tail") rfl).2 (by norm_num) (by norm_num)
    rw [h2]
    rfl
  · exact (claim_C4 (bytesOf "dd1e\" tail") 1 [] 0xDD1E (bytesOf "\" tail") rfl).1
      (by norm_num) (by norm_num)

theorem digitsOf_ne_nil (m : Nat) : digitsOf m ≠ [] := by
  unfold digitsOf
  split_ifs with h
  · simp
  · simp [Nat.digits_ne_nil_iff_ne_zero.mpr h]

theorem digitsOf_lt (m : Nat) : ∀ d ∈ digitsOf m, d < 10 := by
  intro d hd
  unfold digitsOf at hd
  split_ifs at hd with h
  · simp at hd; omega
  · rw [List.mem_reverse] at hd
    exact Nat.digits_lt_base (by norm_num) hd

theorem foldl_reverse_digits (l : List Nat) :
    l.reverse.foldl (fun x d => x * 10 + d) 0 = Nat.ofDigits 10 l := by
  induction l with
  | nil => simp [Nat.ofDigits]
  | cons d l ih =>
    rw [List.reverse_cons, List.foldl_append, ih]
    simp only [List.foldl_cons, List.foldl_nil, Nat.ofDigits_cons]
    push_cast
    ring

theorem foldl_digitsOf (m : Nat) :
    (digitsOf m).foldl (fun x d => x * 10 + d) 0 = m := by
  unfold digitsOf
  split_ifs with h
  · subst h; rfl
  · rw [foldl_reverse_digits, Nat.ofDigits_digits]

theorem foldl_map_digits (l : List Nat) :
    ∀ m0 : Nat, (l.map (fun d => 48 + d)).foldl (fun x c => x * 10 + (c - 48)) m0
      = l.foldl (fun x d => x * 10 + d) m0 := by
  induction l with
  | nil => intro m0; rfl
  | cons d rest ih =>
    intro m0
    simp only [List.map_cons, List.foldl_cons]
    rw [show 48 + d - 48 = d from by omega]
    exact ih _

theorem foldl_acc_ge (digs : List Nat) :
    ∀ m0 : Nat, m0 ≤ digs.foldl (fun x c => x * 10 + (c - 48)) m0 := by
  induction digs with
  | nil => intro m0; simp
  | cons c rest ih =>
    intro m0
    simp only [List.foldl_cons]
    exact le_trans (by omega) (ih (m0 * 10 + (c - 48)))

theorem render_no_leading_zero (m : Nat) :
    ¬(((digitsOf m).map (fun d => 48 + d)).headD 0 = 48 ∧
      ((digitsOf m).map (fun d => 48 + d)).length > 1) := by
  rintro ⟨hhead, hlen⟩
  obtain ⟨h, t, hht⟩ := List.exists_cons_of_ne_nil (digitsOf_ne_nil m)
  rw [hht] at hhead hlen
  simp only [List.map_cons, List.headD_cons] at hhead
  have hh0 : h = 0 := by omega
  simp only [List.map_cons, List.length_cons, List.length_map] at hlen
  have ht : t ≠ [] := by
    intro he
    rw [he] at hlen
    simp at hlen
  by_cases hm : m = 0
  · rw [hm] at hht
    unfold digitsOf at hht
    rw [if_pos rfl] at hht
    injection hht with h1 h2
    exact ht h2.symm
  · unfold digitsOf at hht
    rw [if_neg hm] at hht
    have hlast : (Nat.digits 10 m).getLast? = some h := by
      rw [← List.head?_reverse, hht]
      rfl
    have hne : Nat.digits 10 m ≠ [] := Nat.digits_ne_nil_iff_ne_zero.mpr hm
    rw [List.getLast?_eq_getLast _ hne] at hlast
    injection hlast with hlast
    exact Nat.getLast_digit_ne_zero 10 hm (hlast.trans hh0)

theorem takeWhile_all_digits (l : List Nat) (h : ∀ c ∈ l, 48 ≤ c ∧ c ≤ 57) :
    l.takeWhile isDigitB = l := by
  induction l with
  | nil => rfl
  | cons c rest ih =>
    have hc := h c (List.mem_cons_self _ _)
    have hdig : isDigitB c = true := by
      simp only [isDigitB, Bool.and_eq_true, decide_eq_true_eq]
      omega
    rw [List.takeWhile_cons, hdig]
    simp only [if_true]
    rw [ih (fun x hx => h x (List.mem_cons_of_mem _ hx))]

theorem intLoop_spec (line : Int) (negative : Bool) (bN : Nat)
    (hb : (if negative = true then (8 : Nat) else 7) = bN) :
    ∀ (digs : List Nat) (m0 : Nat), (∀ c ∈ digs, 48 ≤ c ∧ c ≤ 57) →
      m0 ≤ 9223372036854775800 + bN →
      (digs.foldl (fun x c => x * 10 + (c - 48)) m0 ≤ 9223372036854775800 + bN →
        intLoop digs (-(m0 : Int)) negative line
          = .ok (-((digs.foldl (fun x c => x * 10 + (c - 48)) m0 : Nat) : Int)))
      ∧ (9223372036854775800 + bN < digs.foldl (fun x c => x * 10 + (c - 48)) m0 →
        intLoop digs (-(m0 : Int)) negative line
          = .error (.syntaxErr "invalid number syntax: integer does not fit in 64 bits" line)) := by
  have hbI : (if negative = true then (8 : Int) else 7) = (bN : Int) := by
    cases negative <;> simp_all <;> omega
  intro digs
  induction digs with
  | nil =>
    intro m0 hd hm0
    constructor
    · intro h
      simp [intLoop]
    · intro h
      simp only [List.foldl_nil] at h
      omega
  | cons c rest ih =>
    intro m0 hd hm0
    have hc := hd c (List.mem_cons_self _ _)
    have hrest : ∀ x ∈ rest, 48 ≤ x ∧ x ≤ 57 :=
      fun x hx => hd x (List.mem_cons_of_mem _ hx)
    simp only [List.foldl_cons]
    have hstep : intLoop (c :: rest) (-(m0 : Int)) negative line
        = if ((-(m0 : Int)) < -922337203685477580 ∨
              ((-(m0 : Int)) = -922337203685477580 ∧
                ((c : Int) - 48) > (if negative = true then (8 : Int) else 7))) then
            .error (.syntaxErr "invalid number syntax: integer does not fit in 64 bits" line)
          else intLoop rest ((-(m0 : Int)) * 10 - ((c : Int) - 48)) negative line := rfl
    rw [hstep]
    by_cases hover : 9223372036854775800 + bN < m0 * 10 + (c - 48)
    · have hcond : ((-(m0 : Int)) < -922337203685477580 ∨
          ((-(m0 : Int)) = -922337203685477580 ∧
            ((c : Int) - 48) > (if negative = true then (8 : Int) else 7))) := by
        rw [hbI]
        omega
      rw [if_pos hcond]
      constructor
      · intro hle
        exfalso
        have := foldl_acc_ge rest (m0 * 10 + (c - 48))
        omega
      · intro _
        rfl
    · have hcond : ¬((-(m0 : Int)) < -922337203685477580 ∨
          ((-(m0 : Int)) = -922337203685477580 ∧
            ((c : Int) - 48) > (if negative = true then (8 : Int) else 7))) := by
        rw [hbI]
        omega
      rw [if_neg hcond]
      have harg : (-(m0 : Int)) * 10 - ((c : Int) - 48)
          = -(((m0 * 10 + (c - 48) : Nat) : Int)) := by
        omega
      rw [harg]
      exact ih (m0 * 10 + (c - 48)) hrest (by omega)

theorem parse_val_num_render (n : Int) (line : Int)
    (hlo : -(2 ^ 63) ≤ n) (hhi : n ≤ 2 ^ 63 - 1) :
    parse_val_num (decimalRender n) line = .ok (some (.vint n, [])) := by
  have hdigs : ∀ c ∈ (digitsOf n.natAbs).map (fun d => 48 + d), 48 ≤ c ∧ c ≤ 57 := by
    intro c hc
    rw [List.mem_map] at hc
    obtain ⟨d, hd, rfl⟩ := hc
    have := digitsOf_lt n.natAbs d hd
    omega
  have hne : (digitsOf n.natAbs).map (fun d => 48 + d) ≠ [] := by
    simp [digitsOf_ne_nil n.natAbs]
  obtain ⟨c0, ctail, hct⟩ := List.exists_cons_of_ne_nil hne
  have hc0 : 48 ≤ c0 ∧ c0 ≤ 57 := hdigs c0 (hct ▸ List.mem_cons_self _ _)
  have htw : ((digitsOf n.natAbs).map (fun d => 48 + d)).takeWhile isDigitB
      = (digitsOf n.natAbs).map (fun d => 48 + d) :=
    takeWhile_all_digits _ hdigs
  have hlz := render_no_leading_zero n.natAbs
  have hfold : ((digitsOf n.natAbs).map (fun d => 48 + d)).foldl
      (fun x c => x * 10 + (c - 48)) 0 = n.natAbs := by
    rw [foldl_map_digits, foldl_digitsOf]
  by_cases hneg : n < 0
  · have hs : decimalRender n = 45 :: (digitsOf n.natAbs).map (fun d => 48 + d) := by
      unfold decimalRender
      rw [if_pos hneg]
      rfl
    rw [hs]
    unfold parse_val_num
    dsimp only
    have hP : ((45 :: (digitsOf n.natAbs).map (fun d => 48 + d)).headD 0 = 45) = True :=
      eq_true rfl
    simp only [hP, if_true, not_true, and_false, if_false, List.drop_succ_cons,
      List.drop_zero]
    rw [htw]
    rw [if_neg (by rw [hct]; simp)]
    rw [if_neg hlz]
    simp only [List.drop_length, List.headD_nil]
    simp only [show ((0 : Nat) = 46) = False from by simp, if_false]
    simp only [List.headD_nil, show ((0 : Nat) = 101) = False from by simp,
      show ((0 : Nat) = 69) = False from by simp, false_or, or_false, if_false,
      not_false_eq_true, if_true, decide_True]
    have hil := (intLoop_spec line true 8 rfl
      ((digitsOf n.natAbs).map (fun d => 48 + d)) 0 hdigs (by omega)).1
      (by rw [hfold]; omega)
    rw [show (-((0 : Nat) : Int)) = (0 : Int) from by norm_num] at hil
    rw [hil]
    dsimp only
    rw [hfold]
    simp only [Except.ok.injEq, Option.some.injEq, Prod.mk.injEq, VData.vint.injEq,
      and_true]
    omega
  · have hs : decimalRender n = (digitsOf n.natAbs).map (fun d => 48 + d) := by
      unfold decimalRender
      rw [if_neg hneg]
      rfl
    have hPf : (((digitsOf n.natAbs).map (fun d => 48 + d)).headD 0 = 45) = False := by
      rw [hct]
      simp only [List.headD_cons]
      exact eq_false (by omega)
    have hlen0 : ¬(((digitsOf n.natAbs).map (fun d => 48 + d)).length = 0) := by
      rw [hct]
      simp
    rw [hs]
    unfold parse_val_num
    dsimp only
    simp only [hPf, if_false, not_false_eq_true, and_true]
    rw [htw]
    rw [if_neg hlen0]
    rw [if_neg hlen0]
    rw [if_neg hlz]
    simp only [List.drop_length, List.headD_nil]
    simp only [show ((0 : Nat) = 46) = False from by simp, if_false]
    simp only [List.headD_nil, show ((0 : Nat) = 101) = False from by simp,
      show ((0 : Nat) = 69) = False from by simp, false_or, or_false, if_false,
      not_false_eq_true, if_true, decide_False]
    have hil := (intLoop_spec line false 7 rfl
      ((digitsOf n.natAbs).map (fun d => 48 + d)) 0 hdigs (by omega)).1
      (by rw [hfold]; omega)
    rw [show (-((0 : Nat) : Int)) = (0 : Int) from by norm_num] at hil
    rw [hil]
    dsimp only
    rw [hfold]
    simp only [Except.ok.injEq, Option.some.injEq, Prod.mk.injEq, VData.vint.injEq,
      and_true, neg_neg]
    omega

theorem skip_ws_eq_self (c : Nat) (rest : List Nat) (line : Int)
    (h : c = 45 ∨ (48 ≤ c ∧ c ≤ 57)) :
    skip_white_space (c :: rest) line = (c :: rest, line) := by
  unfold skip_white_space
  rw [show (c :: rest).length + 1 = (rest.length + 1) + 1 from by simp]
  simp only [skip_ws_go]
  rw [if_neg (by omega), if_neg (by omega),
    if_neg (by rintro ⟨h1, h2⟩; omega)]

theorem skip_text_cons_ne (t : Nat) (tok : List Nat) (c : Nat) (s : List Nat)
    (h : t ≠ c) : skip_text (t :: tok) (c :: s) = none := by
  unfold skip_text
  rw [if_neg]
  intro hpre
  simp only [List.isPrefixOf, Bool.and_eq_true, beq_iff_eq] at hpre
  exact h hpre.1

theorem parse_val_bool_none (s : List Nat) (line : Int)
    (hf : skip_text [102, 97, 108, 115, 101] s = none)
    (ht : skip_text [116, 114, 117, 101] s = none) :
    parse_val_bool s line = none := by
  unfold parse_val_bool
  rw [hf, ht]

theorem parse_val_succ_of_num (fuel : Nat) (s : List Nat) (line : Int)
    (d : VData VImpl) (s2 : List Nat)
    (hws : skip_white_space s line = (s, line))
    (hnull : skip_text [110, 117, 108, 108] s = none)
    (hbool : parse_val_bool s line = none)
    (hnum : parse_val_num s line = .ok (some (d, s2))) :
    parse_val (fuel + 1) s line = .ok (.mk d false line [] (-1), s2, line) := by
  simp only [parse_val]
  rw [hws]
  dsimp only
  rw [hnull]
  dsimp only
  rw [hbool]
  dsimp only
  rw [hnum]

/-- C6: integer round-trip.  For every signed 64-bit integer `n`,
parsing the decimal rendering of `n` as a single-value document succeeds
with an Int value whose `Int::get` equals `n`. -/
theorem claim_C6 (n : Int) (hlo : -(2 ^ 63) ≤ n) (hhi : n ≤ 2 ^ 63 - 1) :
    Json_parse (decimalRender n) = .ok (.mk (.vint n) false 1 [] (-1))
  ∧ Int_get (.mk (.vint n) false 1 [] (-1)) = n := by
  constructor
  · have hhead : ∃ c rest, decimalRender n = c :: rest ∧
        (c = 45 ∨ (48 ≤ c ∧ c ≤ 57)) := by
      by_cases hneg : n < 0
      · exact ⟨45, _, by unfold decimalRender; rw [if_pos hneg]; rfl, Or.inl rfl⟩
      · have hne : (digitsOf n.natAbs).map (fun d => 48 + d) ≠ [] := by
          simp [digitsOf_ne_nil n.natAbs]
        obtain ⟨c0, ctail, hct⟩ := List.exists_cons_of_ne_nil hne
        refine ⟨c0, ctail, ?_, Or.inr ?_⟩
        · unfold decimalRender
          rw [if_neg hneg]
          simpa using hct
        · have : c0 ∈ (digitsOf n.natAbs).map (fun d => 48 + d) :=
            hct ▸ List.mem_cons_self _ _
          rw [List.mem_map] at this
          obtain ⟨d, hd, rfl⟩ := this
          have := digitsOf_lt n.natAbs d hd
          omega
    obtain ⟨c, rest, hcr, hcb⟩ := hhead
    have hws : skip_white_space (decimalRender n) 1 = (decimalRender n, 1) := by
      rw [hcr]
      exact skip_ws_eq_self c rest 1 hcb
    have hnull : skip_text [110, 117, 108, 108] (decimalRender n) = none := by
      rw [hcr]
      exact skip_text_cons_ne _ _ _ _ (by omega)
    have hfalse : skip_text [102, 97, 108, 115, 101] (decimalRender n) = none := by
      rw [hcr]
      exact skip_text_cons_ne _ _ _ _ (by omega)
    have htrue : skip_text [116, 114, 117, 101] (decimalRender n) = none := by
      rw [hcr]
      exact skip_text_cons_ne _ _ _ _ (by omega)
    have hnum := parse_val_num_render n 1 hlo hhi
    have hpv := parse_val_succ_of_num (2 * (decimalRender n).length + 7)
      (decimalRender n) 1 (.vint n) [] hws hnull
      (parse_val_bool_none _ _ hfalse htrue) hnum
    unfold Json_parse Parser_parse
    rw [show 2 * (decimalRender n).length + 8
          = (2 * (decimalRender n).length + 7) + 1 from rfl]
    rw [hpv]
    dsimp only
    rw [show skip_white_space [] 1 = ([], 1) from rfl]
    dsimp only
    rw [if_pos rfl]
  · simp [Int_get, VImpl.i64, VImpl.data]

/-- C6 witness: the rendering of 42 parses back to the Int 42. -/
theorem claim_C6_witness :
    Json_parse (decimalRender 42) = .ok (.mk (.vint 42) false 1 [] (-1))
  ∧ Int_get (.mk (.vint 42) false 1 [] (-1)) = 42 :=
  claim_C6 42 (by norm_num) (by norm_num)

theorem mem_take_of_drop (s : List Nat) (K L c : Nat) (t : List Nat)
    (hd : s.drop K = c :: t) (hKL : K < L) : c ∈ s.take L := by
  rw [show L = K + (L - K) from by omega, List.take_add, hd]
  rw [show L - K = (L - K - 1) + 1 from by omega, List.take_succ_cons]
  exact List.mem_append_right _ (List.mem_cons_self _ _)

/-- C5: a number token accepted by the parser produces a Float value iff
the consumed token contains a `.` (46), `e` (101) or `E` (69) byte, and
every accepted token produces either an Int or a Float. -/
theorem claim_C5 (s : List Nat) (line : Int) (d : VData VImpl) (rest : List Nat)
    (h : parse_val_num s line = .ok (some (d, rest))) :
    ((∃ x, d = .vf64 x) ↔
      ∃ c ∈ s.take (s.length - rest.length), c = 46 ∨ c = 101 ∨ c = 69)
  ∧ ((∃ m, d = .vint m) ∨ (∃ x, d = .vf64 x)) := by
  unfold parse_val_num at h
  dsimp only at h
  set p0 := if s.headD 0 = 45 then s.drop 1 else s with hp0
  set ds := p0.takeWhile isDigitB with hds
  set p1 := p0.drop ds.length with hp1
  set fds := if p1.headD 0 = 46 then (p1.drop 1).takeWhile isDigitB else [] with hfds
  set p2 := if p1.headD 0 = 46 then (p1.drop 1).drop fds.length else p1 with hp2
  set p2e := if p2.headD 0 = 101 ∨ p2.headD 0 = 69 then p2.drop 1 else p2 with hp2e
  set p2s := if (p2.headD 0 = 101 ∨ p2.headD 0 = 69) ∧
      (p2e.headD 0 = 43 ∨ p2e.headD 0 = 45) then p2e.drop 1 else p2e with hp2s
  set eds := if p2.headD 0 = 101 ∨ p2.headD 0 = 69 then p2s.takeWhile isDigitB
    else [] with heds
  set p3 := if p2.headD 0 = 101 ∨ p2.headD 0 = 69 then p2s.drop eds.length
    else p2 with hp3
  by_cases hA : ds.length = 0 ∧ ¬s.headD 0 = 45
  · rw [if_pos hA] at h
    simp at h
  rw [if_neg hA] at h
  by_cases hB : ds.length = 0
  · rw [if_pos hB] at h
    cases h
  rw [if_neg hB] at h
  by_cases hC : ds.headD 0 = 48 ∧ ds.length > 1
  · rw [if_pos hC] at h
    cases h
  rw [if_neg hC] at h
  by_cases hD : p1.headD 0 = 46 ∨ p2.headD 0 = 101 ∨ p2.headD 0 = 69
  case neg =>
    -- integer path
    rw [if_pos hD] at h
    cases hloop : intLoop ds 0 (decide (s.headD 0 = 45)) line with
    | error e => rw [hloop] at h; cases h
    | ok nv =>
      rw [hloop] at h
      dsimp only at h
      simp only [Except.ok.injEq, Option.some.injEq, Prod.mk.injEq] at h
      obtain ⟨hd1, hrest⟩ := h
      push_neg at hD
      have h46 := hD.1
      have h101 := hD.2.1
      have h69 := hD.2.2
      have hp3n : p3 = p1 := by
        rw [hp3, if_neg (not_or.mpr ⟨h101, h69⟩), hp2, if_neg h46]
      subst hrest
      rw [hp3n]
      have htok : ∀ c, c ∈ s.take (s.length - p1.length) →
          c = 45 ∨ (48 ≤ c ∧ c ≤ 57) := by
        by_cases hneg : s.headD 0 = 45
        · have hsne : s ≠ [] := by
            intro he
            rw [he] at hneg
            simp at hneg
          obtain ⟨c0, s2, rfl⟩ := List.exists_cons_of_ne_nil hsne
          have hc0 : c0 = 45 := by simpa using hneg
          have hp0s : p0 = s2 := by rw [hp0, if_pos hneg]; rfl
          have hdsl : ds.length ≤ s2.length := by
            rw [hds, hp0s]
            exact (List.takeWhile_prefix _).sublist.length_le
          have hlp1 : p1.length = s2.length - ds.length := by
            rw [hp1, List.length_drop, hp0s]
          have hL : (c0 :: s2).length - p1.length = ds.length + 1 := by
            simp only [List.length_cons, hlp1]
            omega
          intro c hc
          rw [hL, List.take_succ_cons] at hc
          rcases List.mem_cons.mp hc with h1 | h2
          · left; rw [h1, hc0]
          · right
            have hteq : s2.take ds.length = ds := by
              rw [← hp0s]
              exact (List.prefix_iff_eq_take.mp (List.takeWhile_prefix _)).symm
            rw [hteq, hds] at h2
            have := List.mem_takeWhile_imp h2
            simp only [isDigitB, Bool.and_eq_true, decide_eq_true_eq] at this
            omega
        · have hp0s : p0 = s := by rw [hp0, if_neg hneg]
          have hdsl : ds.length ≤ s.length := by
            rw [hds, hp0s]
            exact (List.takeWhile_prefix _).sublist.length_le
          have hlp1 : p1.length = s.length - ds.length := by
            rw [hp1, List.length_drop, hp0s]
          have hL : s.length - p1.length = ds.length := by omega
          intro c hc
          rw [hL] at hc
          right
          have hteq : s.take ds.length = ds := by
            conv_lhs => rw [← hp0s]
            exact (List.prefix_iff_eq_take.mp (List.takeWhile_prefix _)).symm
          rw [hteq, hds] at hc
          have := List.mem_takeWhile_imp hc
          simp only [isDigitB, Bool.and_eq_true, decide_eq_true_eq] at this
          omega
      refine ⟨⟨?_, ?_⟩, Or.inl ⟨_, hd1.symm⟩⟩
      · intro ⟨x, hx⟩
        rw [← hd1] at hx
        simp at hx
      · intro ⟨c, hc, hcv⟩
        have := htok c hc
        omega
  case pos =>
    -- float path
    rw [if_neg (not_not_intro hD)] at h
    cases hstd : strtodModel s with
    | none => rw [hstd] at h; cases h
    | some pr =>
      obtain ⟨tok0, rest0⟩ := pr
      rw [hstd] at h
      dsimp only at h
      by_cases hlen : rest0.length = p3.length
      · rw [if_pos hlen] at h
        simp only [Except.ok.injEq, Option.some.injEq, Prod.mk.injEq] at h
        obtain ⟨hd1, hrest⟩ := h
        subst hrest
        have hKdrop : ∃ K, p1 = s.drop K ∧ K ≤ s.length := by
          by_cases hneg : s.headD 0 = 45
          · refine ⟨1 + ds.length, ?_, ?_⟩
            · rw [hp1, hp0, if_pos hneg, List.drop_drop]
            · have hsne : s ≠ [] := by
                intro he
                rw [he] at hneg
                simp at hneg
              obtain ⟨c0, s2, rfl⟩ := List.exists_cons_of_ne_nil hsne
              have hb : ds.length ≤ s2.length := by
                rw [hds, hp0, if_pos hneg]
                exact (List.takeWhile_prefix _).sublist.length_le
              simp only [List.length_cons]
              omega
          · refine ⟨ds.length, ?_, ?_⟩
            · rw [hp1, hp0, if_neg hneg]
            · rw [hds, hp0, if_neg hneg]
              exact (List.takeWhile_prefix _).sublist.length_le
        obtain ⟨K, hKd, hKle⟩ := hKdrop
        have hlp1 : p1.length = s.length - K := by rw [hKd, List.length_drop]
        refine ⟨⟨fun _ => ?_, fun _ => ⟨_, hd1.symm⟩⟩, Or.inr ⟨_, hd1.symm⟩⟩
        rcases hD with hfrac | hexp
        · -- a decimal point is in the token
          have hp1ne : p1 ≠ [] := by
            intro he
            rw [he] at hfrac
            simp at hfrac
          obtain ⟨c1, t1, hct1⟩ := List.exists_cons_of_ne_nil hp1ne
          have hc1 : c1 = 46 := by
            rw [hct1] at hfrac
            simpa using hfrac
          have hp2l : p2.length ≤ p1.length - 1 := by
            rw [hp2, if_pos hfrac]
            simp only [List.length_drop]
            omega
          have hp2el : p2e.length ≤ p2.length := by
            rw [hp2e]
            split_ifs
            · simp only [List.length_drop]; omega
            · exact le_refl _
          have hp2sl : p2s.length ≤ p2e.length := by
            rw [hp2s]
            split_ifs
            · simp only [List.length_drop]; omega
            · exact le_refl _
          have hp3l : p3.length ≤ p2.length := by
            rw [hp3]
            split_ifs
            · calc (p2s.drop eds.length).length ≤ p2s.length := by
                    simp only [List.length_drop]; omega
                _ ≤ p2e.length := hp2sl
                _ ≤ p2.length := hp2el
            · exact le_refl _
          have hp1pos : 0 < p1.length := by rw [hct1]; simp
          have hKL : K < s.length - p3.length := by omega
          refine ⟨46, mem_take_of_drop s K _ 46 t1 ?_ hKL, Or.inl rfl⟩
          rw [← hKd, hct1, hc1]
        · -- an exponent marker is in the token
          have hK2 : ∃ K2, p2 = s.drop K2 ∧ K2 ≤ s.length := by
            by_cases hfrac : p1.headD 0 = 46
            · refine ⟨fds.length + (1 + K), ?_, ?_⟩
              · rw [hp2, if_pos hfrac, hKd, List.drop_drop, List.drop_drop]
                congr 1
                omega
              · have hp2ne : p2 ≠ [] := by
                  intro he
                  rw [he] at hexp
                  simp at hexp
                have h1 : p2.length = s.length - (fds.length + (1 + K)) := by
                  rw [hp2, if_pos hfrac, hKd, List.drop_drop, List.drop_drop,
                    List.length_drop]
                  omega
                have h2 : 0 < p2.length := List.length_pos.mpr hp2ne
                omega
            · exact ⟨K, by rw [hp2, if_neg hfrac, hKd], hKle⟩
          obtain ⟨K2, hK2d, hK2le⟩ := hK2
          have hp2ne : p2 ≠ [] := by
            intro he
            rw [he] at hexp
            simp at hexp
          obtain ⟨c2, t2, hct2⟩ := List.exists_cons_of_ne_nil hp2ne
          have hc2 : c2 = 101 ∨ c2 = 69 := by
            rw [hct2] at hexp
            simpa using hexp
          have hlp2 : p2.length = s.length - K2 := by rw [hK2d, List.length_drop]
          have hp2el : p2e.length ≤ p2.length - 1 := by
            rw [hp2e, if_pos hexp]
            simp only [List.length_drop]
            omega
          have hp2sl : p2s.length ≤ p2e.length := by
            rw [hp2s]
            split_ifs
            · simp only [List.length_drop]; omega
            · exact le_refl _
          have hp3l : p3.length ≤ p2s.length := by
            rw [hp3, if_pos hexp]
            simp only [List.length_drop]
            omega
          have hp2pos : 0 < p2.length := by rw [hct2]; simp
          have hKL : K2 < s.length - p3.length := by omega
          refine ⟨c2, mem_take_of_drop s K2 _ c2 t2 ?_ hKL, ?_⟩
          · rw [← hK2d, hct2]
          · rcases hc2 with hcc | hcc
            · exact Or.inr (Or.inl hcc)
            · exact Or.inr (Or.inr hcc)
      · rw [if_neg hlen] at h
        cases h

/-- C5 witness: the accepted token `1.5` produces a Float, so the token
contains one of the bytes 46, 101, 69. -/
theorem claim_C5_witness :
    ∃ c ∈ (bytesOf "1.5").take ((bytesOf "1.5").length - ([] : List Nat).length),
      c = 46 ∨ c = 101 ∨ c = 69 :=
  (claim_C5 (bytesOf "1.5") 1 (.vf64 (.strtodOf (bytesOf "1.5"))) [] rfl).1.mp
    ⟨_, rfl⟩

/-- C3: integer parsing accepts exactly the signed 64-bit range; both
boundary values parse to Int values retrievable by `Int::get`, and the
values one past the boundary fail with the bad-number syntax error. -/
theorem claim_C3 :
    Json_parse (bytesOf "9223372036854775807") =
      .ok (.mk (.vint 9223372036854775807) false 1 [] (-1))
  ∧ Json_parse (bytesOf "-9223372036854775808") =
      .ok (.mk (.vint (-9223372036854775808)) false 1 [] (-1))
  ∧ Json_parse (bytesOf "9223372036854775808") =
      .error (.syntaxErr "invalid number syntax: integer does not fit in 64 bits" 1)
  ∧ Json_parse (bytesOf "-9223372036854775809") =
      .error (.syntaxErr "invalid number syntax: integer does not fit in 64 bits" 1)
  ∧ Int_get (.mk (.vint 9223372036854775807) false 1 [] (-1)) = 9223372036854775807
  ∧ Int_get (.mk (.vint (-9223372036854775808)) false 1 [] (-1)) = -9223372036854775808 := by
  exact ⟨rfl, rfl, rfl, rfl, rfl, rfl⟩

/-- C7: `as_f64` succeeds exactly on the Int and Float tags and fails
with a bad-type error on every other tag; `F64::get` widens a stored
Int to double and returns a stored Float unchanged. -/
theorem claim_C7 (v : VImpl) :
    (Val_as_f64 v = .ok v ↔ (v.get_type = vtInt ∨ v.get_type = vtF64))
  ∧ (¬(v.get_type = vtInt ∨ v.get_type = vtF64) →
      Val_as_f64 v = .error (.badType v.name v.idx v.get_type vtF64))
  ∧ (∀ n : Int, v.data = .vint n → F64_get v = .ofInt64 n)
  ∧ (∀ d : CDouble, v.data = .vf64 d → F64_get v = d) := by
  obtain ⟨d, u, l, nm, i⟩ := v
  have e1 : (1 : Nat) &&& 12 = 0 := by decide
  have e2 : (2 : Nat) &&& 12 = 0 := by decide
  have e4 : (4 : Nat) &&& 12 = 4 := by decide
  have e8 : (8 : Nat) &&& 12 = 8 := by decide
  have e16 : (16 : Nat) &&& 12 = 0 := by decide
  have e32 : (32 : Nat) &&& 12 = 0 := by decide
  have e64 : (64 : Nat) &&& 12 = 0 := by decide
  have f4 : (4 : Nat) &&& 4 = 4 := by decide
  have f8 : (4 : Nat) &&& 8 = 0 := by decide
  cases d <;>
    simp [Val_as_f64, val_cast, VImpl.get_type, VImpl.data, VImpl.i64, VImpl.f64,
      F64_get, VImpl.name, VImpl.idx, vtNull, vtBool, vtInt, vtF64, vtStr, vtArr, vtObj,
      e1, e2, e4, e8, e16, e32, e64, f4, f8]

/-- C7 witness: at a concrete Int node, `F64::get` returns the integer
widened to double. -/
theorem claim_C7_witness :
    F64_get sampleInt = .ofInt64 5 ∧ Val_as_f64 sampleInt = .ok sampleInt := by
  refine ⟨(claim_C7 sampleInt).2.2.1 5 rfl, ?_⟩
  exact (claim_C7 sampleInt).1.mpr (Or.inl rfl)

/-- C8: `Int::get(lo, hi)` checks the range only when `lo ≤ hi`, failing
with a bad-int-range error carrying `lo` and `hi`; when `lo > hi` the
stored integer is returned unchecked, while `Int::get_i32(lo, hi)` then
checks the full signed 32-bit range instead. -/
theorem claim_C8 (v : VImpl) (n lo hi : Int) (hv : v.data = .vint n) :
    (lo ≤ hi → lo ≤ n → n ≤ hi → Int_get_range v lo hi = .ok n)
  ∧ (lo ≤ hi → (n < lo ∨ hi < n) →
      Int_get_range v lo hi = .error (.badIntRange v.name v.idx lo hi))
  ∧ (hi < lo → Int_get_range v lo hi = .ok n)
  ∧ (hi < lo → Int_get_i32_range v lo hi =
      if INT32_MIN ≤ n ∧ n ≤ INT32_MAX then .ok n
      else .error (.badIntRange v.name v.idx INT32_MIN INT32_MAX)) := by
  have hn : Int_get v = n := by simp [Int_get, VImpl.i64, hv]
  refine ⟨?_, ?_, ?_, ?_⟩
  · intro h1 h2 h3
    simp only [Int_get_range, hn]
    rw [if_neg]
    omega
  · intro h1 h2
    simp only [Int_get_range, hn]
    rw [if_pos]
    omega
  · intro h1
    simp only [Int_get_range, hn]
    rw [if_neg]
    omega
  · intro h1
    have hgt : lo > hi := h1
    simp only [Int_get_i32_range, if_pos hgt, Int_get_range, hn]
    by_cases hr : INT32_MIN ≤ n ∧ n ≤ INT32_MAX
    · rw [if_neg, if_pos hr]
      · simp only [Except.map]
        congr 1
        simp only [INT32_MIN, INT32_MAX] at hr
        simp only [i32cast]
        omega
      · simp only [INT32_MIN, INT32_MAX] at hr ⊢
        omega
    · rw [if_pos, if_neg hr]
      · rfl
      · simp only [INT32_MIN, INT32_MAX] at hr ⊢
        omega

/-- C8 witness: concrete range-checked reads on the sample Int node. -/
theorem claim_C8_witness :
    Int_get_range sampleInt 0 10 = .ok 5
  ∧ Int_get_range sampleInt 6 10 = .error (.badIntRange [] (-1) 6 10)
  ∧ Int_get_range sampleInt 10 0 = .ok 5 := by
  refine ⟨(claim_C8 sampleInt 5 0 10 rfl).1 (by decide) (by decide) (by decide), ?_, ?_⟩
  · have h := (claim_C8 sampleInt 5 6 10 rfl).2.1 (by decide) (Or.inl (by decide))
    simpa [sampleInt, VImpl.name, VImpl.idx] using h
  · exact (claim_C8 sampleInt 5 10 0 rfl).2.2.1 (by decide)

end Ujson
